import Mathlib

/-!
# Flocking simulation (`src/main.cpp`): a shallow embedding

The C++ `float` is modelled by a linearly ordered field `F` together with a
square-root function `sqrt : F → F` that every definition takes as a
parameter.  The definitions are computable for a computable field (such as
`ℚ` with any supplied root function); the theorems instantiate `F := ℝ` and
`sqrt := Real.sqrt`, that is, exact real arithmetic.  The `int` constants
`WIDTH`, `HEIGHT` and the `int` neighbour counters are cast to `F` exactly
where the C++ code converts them to `float`.

Two further families of definitions repeat the same code: one with every
division checked for a zero divisor, and one (suffix `R`) with the result of
every arithmetic operation rounded.  The latter, instantiated over `ℚ` with
`round32` and `sqrt32`, computes what the program computes in IEEE binary32;
it is used where a statement that holds in exact real arithmetic fails on
the program's `float` values.
-/

namespace Flocking

/-! ## Constants -/

/-- Field width, `const int WIDTH = 800`. -/
def WIDTH : Nat := 800

/-- Field height, `const int HEIGHT = 600`. -/
def HEIGHT : Nat := 600

/-- Top speed, `const float MAX_SPEED = 3.0f`. -/
def MAX_SPEED {F : Type} [LinearOrderedField F] : F := 3

/-- Steering cap, `const float MAX_FORCE = 0.1f`. -/
def MAX_FORCE {F : Type} [LinearOrderedField F] : F := 1 / 10

/-- Separation radius, `const float DESIRED_SEPARATION = 25.0f`. -/
def DESIRED_SEPARATION {F : Type} [LinearOrderedField F] : F := 25

/-- Alignment and cohesion radius, `const float NEIGHBOR_RADIUS = 50.0f`. -/
def NEIGHBOR_RADIUS {F : Type} [LinearOrderedField F] : F := 50

/-! ## `struct Vector2D` -/

/-- The value type `Vector2D` with its two `float` components. -/
@[ext]
structure Vector2D (F : Type) where
  x : F
  y : F

namespace Vector2D

variable {F : Type} [LinearOrderedField F]

/-- The default constructor `Vector2D() : x(0), y(0)`. -/
def zero : Vector2D F := ⟨0, 0⟩

/-- The method `magnitude()`: `sqrt(x * x + y * y)`. -/
def magnitude (sqrt : F → F) (v : Vector2D F) : F :=
  sqrt (v.x * v.x + v.y * v.y)

/-- The operator `+`. -/
def add (a b : Vector2D F) : Vector2D F := ⟨a.x + b.x, a.y + b.y⟩

/-- The operator `-`. -/
def sub (a b : Vector2D F) : Vector2D F := ⟨a.x - b.x, a.y - b.y⟩

/-- The operator `*` by a scalar. -/
def smul (a : Vector2D F) (scalar : F) : Vector2D F := ⟨a.x * scalar, a.y * scalar⟩

/-- The operator `/` by a scalar (unchecked, as in the source). -/
def sdiv (a : Vector2D F) (scalar : F) : Vector2D F := ⟨a.x / scalar, a.y / scalar⟩

/-- The method `normalize()`, returning the mutated vector: both components
are divided by the magnitude when the magnitude is positive, and the vector
is left alone otherwise. -/
def normalize (sqrt : F → F) (v : Vector2D F) : Vector2D F :=
  let mag := magnitude sqrt v
  if mag > 0 then ⟨v.x / mag, v.y / mag⟩ else v

end Vector2D

/-! ## `class Boid` -/

/-- The entity `Boid`: a position and a velocity. -/
@[ext]
structure Boid (F : Type) where
  position : Vector2D F
  velocity : Vector2D F

namespace Boid

variable {F : Type} [LinearOrderedField F]

open Vector2D

/-- The constructor `Boid(float x, float y)`: the position is `(x, y)` and each
velocity component is `rand() % 3 - 1.5f`; the two values returned by
`rand()` (non-negative integers) are the parameters `r1` and `r2`. -/
def construct (x y : F) (r1 r2 : Nat) : Boid F :=
  ⟨⟨x, y⟩, ⟨((r1 % 3 : Nat) : F) - 3 / 2, ((r2 % 3 : Nat) : F) - 3 / 2⟩⟩

/-- The clamp that ends `separate`, `align` and `seek`:
`if (steer.magnitude() > MAX_FORCE) { steer.normalize(); steer = steer * MAX_FORCE; }`. -/
def clampForce (sqrt : F → F) (steer : Vector2D F) : Vector2D F :=
  if magnitude sqrt steer > MAX_FORCE then smul (normalize sqrt steer) MAX_FORCE else steer

/-- One iteration of the loop of `separate` on the accumulator `(steer, count)`. -/
def separateStep (sqrt : F → F) (self : Boid F) (acc : Vector2D F × Nat) (other : Boid F) :
    Vector2D F × Nat :=
  let d := magnitude sqrt (sub self.position other.position)
  if d > 0 ∧ d < DESIRED_SEPARATION then
    let diff := sub self.position other.position
    let diff := normalize sqrt diff
    let diff := sdiv diff d
    (add acc.1 diff, acc.2 + 1)
  else acc

/-- The method `separate`. -/
def separate (sqrt : F → F) (self : Boid F) (boids : List (Boid F)) : Vector2D F :=
  let acc := boids.foldl (separateStep sqrt self) (Vector2D.zero, 0)
  let steer := acc.1
  let count := acc.2
  let steer := if count > 0 then sdiv steer (count : F) else steer
  if magnitude sqrt steer > 0 then
    let steer := normalize sqrt steer
    let steer := smul steer MAX_SPEED
    let steer := sub steer self.velocity
    clampForce sqrt steer
  else steer

/-- One iteration of the loop of `align` on the accumulator `(sum, count)`. -/
def alignStep (sqrt : F → F) (self : Boid F) (acc : Vector2D F × Nat) (other : Boid F) :
    Vector2D F × Nat :=
  let d := magnitude sqrt (sub self.position other.position)
  if d > 0 ∧ d < NEIGHBOR_RADIUS then (add acc.1 other.velocity, acc.2 + 1) else acc

/-- The method `align`. -/
def align (sqrt : F → F) (self : Boid F) (boids : List (Boid F)) : Vector2D F :=
  let acc := boids.foldl (alignStep sqrt self) (Vector2D.zero, 0)
  let sum := acc.1
  let count := acc.2
  if count > 0 then
    let sum := sdiv sum (count : F)
    let sum := normalize sqrt sum
    let sum := smul sum MAX_SPEED
    let steer := sub sum self.velocity
    clampForce sqrt steer
  else Vector2D.zero

/-- The method `seek`. -/
def seek (sqrt : F → F) (self : Boid F) (target : Vector2D F) : Vector2D F :=
  let desired := sub target self.position
  let desired := normalize sqrt desired
  let desired := smul desired MAX_SPEED
  let steer := sub desired self.velocity
  clampForce sqrt steer

/-- One iteration of the loop of `cohesion` on the accumulator `(sum, count)`. -/
def cohesionStep (sqrt : F → F) (self : Boid F) (acc : Vector2D F × Nat) (other : Boid F) :
    Vector2D F × Nat :=
  let d := magnitude sqrt (sub self.position other.position)
  if d > 0 ∧ d < NEIGHBOR_RADIUS then (add acc.1 other.position, acc.2 + 1) else acc

/-- The method `cohesion`. -/
def cohesion (sqrt : F → F) (self : Boid F) (boids : List (Boid F)) : Vector2D F :=
  let acc := boids.foldl (cohesionStep sqrt self) (Vector2D.zero, 0)
  let sum := acc.1
  let count := acc.2
  if count > 0 then
    let sum := sdiv sum (count : F)
    seek sqrt self sum
  else Vector2D.zero

/-- The sum `separation + alignment + cohesionForce` formed in `update`. -/
def acceleration (sqrt : F → F) (self : Boid F) (boids : List (Boid F)) : Vector2D F :=
  add (add (separate sqrt self boids) (align sqrt self boids)) (cohesion sqrt self boids)

/-- The method `update`, returning the mutated boid. -/
def update (sqrt : F → F) (self : Boid F) (boids : List (Boid F)) : Boid F :=
  let separation := separate sqrt self boids
  let alignment := align sqrt self boids
  let cohesionForce := cohesion sqrt self boids
  let acceleration := add (add separation alignment) cohesionForce
  let velocity := add self.velocity acceleration
  let velocity := normalize sqrt velocity
  let velocity := smul velocity MAX_SPEED
  let position := add self.position velocity
  let position : Vector2D F := if position.x < 0 then ⟨(WIDTH : F), position.y⟩ else position
  let position : Vector2D F := if position.x > (WIDTH : F) then ⟨0, position.y⟩ else position
  let position : Vector2D F := if position.y < 0 then ⟨position.x, (HEIGHT : F)⟩ else position
  let position : Vector2D F := if position.y > (HEIGHT : F) then ⟨position.x, 0⟩ else position
  ⟨position, velocity⟩

end Boid

/-! ## The update loop of `main` -/

variable {F : Type} [LinearOrderedField F]

/-- The loop `for (auto& boid : boids) boid.update(boids);` after the boids
in `done` have been updated in place and those in the second list are still
to be visited: the vector read by the next `update` is `done ++ b :: rest`. -/
def tickLoop (sqrt : F → F) : List (Boid F) → List (Boid F) → List (Boid F)
  | done, [] => done
  | done, b :: rest =>
    tickLoop sqrt (done ++ [Boid.update sqrt b (done ++ b :: rest)]) rest

/-- One pass of the update loop of `main` over the whole collection. -/
def tick (sqrt : F → F) (boids : List (Boid F)) : List (Boid F) :=
  tickLoop sqrt [] boids

/-- The first `n` passes of the `while (!quit)` loop of `main`, as far as the
boids are concerned: `n` ticks in a row. -/
def runTicks (sqrt : F → F) : Nat → List (Boid F) → List (Boid F)
  | 0, boids => boids
  | n + 1, boids => runTicks sqrt n (tick sqrt boids)

/-- The tick as the specification words it: every boid's new state is
computed from the unmodified pre-tick collection, then all are applied. -/
def tickSnapshot (sqrt : F → F) (boids : List (Boid F)) : List (Boid F) :=
  boids.map (fun b => Boid.update sqrt b boids)

/-! ## Predicates and sample inputs used by the statements -/

section Statements

open Vector2D

/-- The test `d > 0 && d < NEIGHBOR_RADIUS` of `align` and `cohesion`. -/
def inNeighborRadius (sqrt : F → F) (self other : Boid F) : Prop :=
  magnitude sqrt (sub self.position other.position) > 0 ∧
    magnitude sqrt (sub self.position other.position) < NEIGHBOR_RADIUS

/-- The test `d > 0 && d < DESIRED_SEPARATION` of `separate`. -/
def inSeparation (sqrt : F → F) (self other : Boid F) : Prop :=
  magnitude sqrt (sub self.position other.position) > 0 ∧
    magnitude sqrt (sub self.position other.position) < DESIRED_SEPARATION

/-- The boids of the collection that pass the test of `align` and `cohesion`
for `self`, in the order of the collection. -/
def neighbors (sqrt : F → F) (self : Boid F) (boids : List (Boid F)) : List (Boid F) :=
  boids.filter (fun other =>
    decide (magnitude sqrt (sub self.position other.position) > 0 ∧
      magnitude sqrt (sub self.position other.position) < NEIGHBOR_RADIUS))

/-- The sum of a list of vectors. -/
def vecSum : List (Vector2D F) → Vector2D F
  | [] => Vector2D.zero
  | v :: vs => add v (vecSum vs)

/-- The arithmetic mean of the positions of the boids that pass the test of
`cohesion` for `self`. -/
def centroid (sqrt : F → F) (self : Boid F) (boids : List (Boid F)) : Vector2D F :=
  sdiv (vecSum ((neighbors sqrt self boids).map (fun o => o.position)))
    ((neighbors sqrt self boids).length : F)

/-- A boid at `(100, 100)` flying left at full speed. -/
def sampleLeft : Boid F := ⟨⟨100, 100⟩, ⟨-3, 0⟩⟩

/-- A boid at `(149, 100)`, 49 units right of `sampleLeft`, drifting right slowly. -/
def sampleRight : Boid F := ⟨⟨149, 100⟩, ⟨1 / 10, 0⟩⟩

/-- A boid at `(152, 100)`, 52 units right of `sampleLeft`, flying right at full speed. -/
def sampleFar : Boid F := ⟨⟨152, 100⟩, ⟨3, 0⟩⟩

/-- A boid at `(100, 100)` flying along the y axis at full speed. -/
def sampleUpA : Boid F := ⟨⟨100, 100⟩, ⟨0, 3⟩⟩

/-- A boid at `(110, 100)`, 10 units right of `sampleUpA`, with the same velocity. -/
def sampleUpB : Boid F := ⟨⟨110, 100⟩, ⟨0, 3⟩⟩

/-- The state of `sampleLeft` after one `update`: `(97, 100)`, still flying left. -/
def sampleLeftNext : Boid F := ⟨⟨97, 100⟩, ⟨-3, 0⟩⟩

/-- The state `sampleRight` takes when it still sees `sampleLeft` 49 units away:
`(146, 100)`, turned around to fly left. -/
def sampleRightTurned : Boid F := ⟨⟨146, 100⟩, ⟨-3, 0⟩⟩

/-- A boid at `(150, 100)`, exactly `NEIGHBOR_RADIUS` right of `sampleLeft`. -/
def sampleAtRadius : Boid F := ⟨⟨150, 100⟩, ⟨-3, 0⟩⟩

/-- A boid at `(125, 100)`, exactly `DESIRED_SEPARATION` right of `sampleLeft`. -/
def sampleAtSeparation : Boid F := ⟨⟨125, 100⟩, ⟨-3, 0⟩⟩

/-- A boid at `(180, 100)`, 80 units right of `sampleLeft` and 31 units right of
`sampleRight`, flying right at full speed. -/
def sampleEast : Boid F := ⟨⟨180, 100⟩, ⟨3, 0⟩⟩

/-- The state of `sampleEast` after one `update` next to `sampleRight`: `(183, 100)`. -/
def sampleEastNext : Boid F := ⟨⟨183, 100⟩, ⟨3, 0⟩⟩

/-- A boid at rest at the origin. -/
def sampleRest : Boid F := ⟨⟨0, 0⟩, ⟨0, 0⟩⟩

end Statements

/-! ## The same code with every division checked

Each `/` of the source is replaced by `checkedDiv`, which fails on a zero
divisor; the guards, loops and arithmetic are otherwise those of the
definitions above. -/

/-- A single `float` division that fails when the divisor is zero. -/
def checkedDiv (a b : F) : Option F :=
  if b = 0 then none else some (a / b)

namespace Vector2D

/-- The operator `/` by a scalar with both component divisions checked. -/
def sdivChecked (a : Vector2D F) (scalar : F) : Option (Vector2D F) := do
  let x ← checkedDiv a.x scalar
  let y ← checkedDiv a.y scalar
  pure ⟨x, y⟩

/-- The method `normalize()` with `x /= mag; y /= mag;` checked. -/
def normalizeChecked (sqrt : F → F) (v : Vector2D F) : Option (Vector2D F) :=
  let mag := magnitude sqrt v
  if mag > 0 then do
    let x ← checkedDiv v.x mag
    let y ← checkedDiv v.y mag
    pure ⟨x, y⟩
  else some v

end Vector2D

namespace Boid

open Vector2D

/-- The final clamp with its `normalize()` checked. -/
def clampForceChecked (sqrt : F → F) (steer : Vector2D F) : Option (Vector2D F) :=
  if magnitude sqrt steer > MAX_FORCE then do
    let steer ← normalizeChecked sqrt steer
    pure (smul steer MAX_FORCE)
  else some steer

/-- One iteration of the loop of `separate`, divisions checked. -/
def separateStepChecked (sqrt : F → F) (self : Boid F) (acc : Vector2D F × Nat)
    (other : Boid F) : Option (Vector2D F × Nat) :=
  let d := magnitude sqrt (sub self.position other.position)
  if d > 0 ∧ d < DESIRED_SEPARATION then do
    let diff := sub self.position other.position
    let diff ← normalizeChecked sqrt diff
    let diff ← sdivChecked diff d
    pure (add acc.1 diff, acc.2 + 1)
  else some acc

/-- The method `separate`, divisions checked. -/
def separateChecked (sqrt : F → F) (self : Boid F) (boids : List (Boid F)) :
    Option (Vector2D F) := do
  let acc ← boids.foldlM (separateStepChecked sqrt self) (Vector2D.zero, 0)
  let steer := acc.1
  let count := acc.2
  let steer ← if count > 0 then sdivChecked steer (count : F) else some steer
  if magnitude sqrt steer > 0 then do
    let steer ← normalizeChecked sqrt steer
    let steer := smul steer MAX_SPEED
    let steer := sub steer self.velocity
    clampForceChecked sqrt steer
  else some steer

/-- The method `align`, divisions checked (its loop divides nothing). -/
def alignChecked (sqrt : F → F) (self : Boid F) (boids : List (Boid F)) :
    Option (Vector2D F) :=
  let acc := boids.foldl (alignStep sqrt self) (Vector2D.zero, 0)
  let sum := acc.1
  let count := acc.2
  if count > 0 then do
    let sum ← sdivChecked sum (count : F)
    let sum ← normalizeChecked sqrt sum
    let sum := smul sum MAX_SPEED
    let steer := sub sum self.velocity
    clampForceChecked sqrt steer
  else some Vector2D.zero

/-- The method `seek`, divisions checked. -/
def seekChecked (sqrt : F → F) (self : Boid F) (target : Vector2D F) :
    Option (Vector2D F) := do
  let desired := sub target self.position
  let desired ← normalizeChecked sqrt desired
  let desired := smul desired MAX_SPEED
  let steer := sub desired self.velocity
  clampForceChecked sqrt steer

/-- The method `cohesion`, divisions checked (its loop divides nothing). -/
def cohesionChecked (sqrt : F → F) (self : Boid F) (boids : List (Boid F)) :
    Option (Vector2D F) :=
  let acc := boids.foldl (cohesionStep sqrt self) (Vector2D.zero, 0)
  let sum := acc.1
  let count := acc.2
  if count > 0 then do
    let sum ← sdivChecked sum (count : F)
    seekChecked sqrt self sum
  else some Vector2D.zero

/-- The method `update`, divisions checked. -/
def updateChecked (sqrt : F → F) (self : Boid F) (boids : List (Boid F)) :
    Option (Boid F) := do
  let separation ← separateChecked sqrt self boids
  let alignment ← alignChecked sqrt self boids
  let cohesionForce ← cohesionChecked sqrt self boids
  let acceleration := add (add separation alignment) cohesionForce
  let velocity := add self.velocity acceleration
  let velocity ← normalizeChecked sqrt velocity
  let velocity := smul velocity MAX_SPEED
  let position := add self.position velocity
  let position : Vector2D F := if position.x < 0 then ⟨(WIDTH : F), position.y⟩ else position
  let position : Vector2D F := if position.x > (WIDTH : F) then ⟨0, position.y⟩ else position
  let position : Vector2D F := if position.y < 0 then ⟨position.x, (HEIGHT : F)⟩ else position
  let position : Vector2D F := if position.y > (HEIGHT : F) then ⟨position.x, 0⟩ else position
  pure ⟨position, velocity⟩

end Boid

/-! ## The same code with every arithmetic result rounded

The C++ code computes in `float`: every `+`, `-`, `*`, `/` and `std::sqrt`
returns the exact result rounded to a `float`.  The definitions below repeat
the code with a rounding function `rnd : F → F` applied to the result of each
arithmetic operation and a root function `sqrt` that is expected to round
likewise; comparisons are exact.  With `rnd := id` they are the definitions
above; with `rnd := round32` and `sqrt := sqrt32` over `ℚ` they compute what
the program computes in IEEE binary32.  The `int` counters and `WIDTH`,
`HEIGHT` convert to `float` without rounding, and `MAX_SPEED`,
`DESIRED_SEPARATION` and `NEIGHBOR_RADIUS` are `float` values already; only
`MAX_FORCE = 0.1f` is rounded. -/

/-- The constant `MAX_FORCE = 0.1f` as a rounded value. -/
def maxForceR (rnd : F → F) : F := rnd MAX_FORCE

namespace Vector2D

/-- The method `magnitude()` in rounded arithmetic. -/
def magnitudeR (rnd sqrt : F → F) (v : Vector2D F) : F :=
  sqrt (rnd (rnd (v.x * v.x) + rnd (v.y * v.y)))

/-- The operator `+` in rounded arithmetic. -/
def addR (rnd : F → F) (a b : Vector2D F) : Vector2D F :=
  ⟨rnd (a.x + b.x), rnd (a.y + b.y)⟩

/-- The operator `-` in rounded arithmetic. -/
def subR (rnd : F → F) (a b : Vector2D F) : Vector2D F :=
  ⟨rnd (a.x - b.x), rnd (a.y - b.y)⟩

/-- The operator `*` by a scalar in rounded arithmetic. -/
def smulR (rnd : F → F) (a : Vector2D F) (scalar : F) : Vector2D F :=
  ⟨rnd (a.x * scalar), rnd (a.y * scalar)⟩

/-- The operator `/` by a scalar in rounded arithmetic. -/
def sdivR (rnd : F → F) (a : Vector2D F) (scalar : F) : Vector2D F :=
  ⟨rnd (a.x / scalar), rnd (a.y / scalar)⟩

/-- The method `normalize()` in rounded arithmetic. -/
def normalizeR (rnd sqrt : F → F) (v : Vector2D F) : Vector2D F :=
  let mag := magnitudeR rnd sqrt v
  if mag > 0 then ⟨rnd (v.x / mag), rnd (v.y / mag)⟩ else v

end Vector2D

namespace Boid

open Vector2D

/-- The final clamp in rounded arithmetic. -/
def clampForceR (rnd sqrt : F → F) (steer : Vector2D F) : Vector2D F :=
  if magnitudeR rnd sqrt steer > maxForceR rnd then
    smulR rnd (normalizeR rnd sqrt steer) (maxForceR rnd)
  else steer

/-- One iteration of the loop of `separate` in rounded arithmetic. -/
def separateStepR (rnd sqrt : F → F) (self : Boid F) (acc : Vector2D F × Nat)
    (other : Boid F) : Vector2D F × Nat :=
  let d := magnitudeR rnd sqrt (subR rnd self.position other.position)
  if d > 0 ∧ d < DESIRED_SEPARATION then
    let diff := subR rnd self.position other.position
    let diff := normalizeR rnd sqrt diff
    let diff := sdivR rnd diff d
    (addR rnd acc.1 diff, acc.2 + 1)
  else acc

/-- The method `separate` in rounded arithmetic. -/
def separateR (rnd sqrt : F → F) (self : Boid F) (boids : List (Boid F)) : Vector2D F :=
  let acc := boids.foldl (separateStepR rnd sqrt self) (Vector2D.zero, 0)
  let steer := acc.1
  let count := acc.2
  let steer := if count > 0 then sdivR rnd steer (count : F) else steer
  if magnitudeR rnd sqrt steer > 0 then
    let steer := normalizeR rnd sqrt steer
    let steer := smulR rnd steer MAX_SPEED
    let steer := subR rnd steer self.velocity
    clampForceR rnd sqrt steer
  else steer

/-- One iteration of the loop of `align` in rounded arithmetic. -/
def alignStepR (rnd sqrt : F → F) (self : Boid F) (acc : Vector2D F × Nat)
    (other : Boid F) : Vector2D F × Nat :=
  let d := magnitudeR rnd sqrt (subR rnd self.position other.position)
  if d > 0 ∧ d < NEIGHBOR_RADIUS then (addR rnd acc.1 other.velocity, acc.2 + 1) else acc

/-- The method `align` in rounded arithmetic. -/
def alignR (rnd sqrt : F → F) (self : Boid F) (boids : List (Boid F)) : Vector2D F :=
  let acc := boids.foldl (alignStepR rnd sqrt self) (Vector2D.zero, 0)
  let sum := acc.1
  let count := acc.2
  if count > 0 then
    let sum := sdivR rnd sum (count : F)
    let sum := normalizeR rnd sqrt sum
    let sum := smulR rnd sum MAX_SPEED
    let steer := subR rnd sum self.velocity
    clampForceR rnd sqrt steer
  else Vector2D.zero

/-- The method `seek` in rounded arithmetic. -/
def seekR (rnd sqrt : F → F) (self : Boid F) (target : Vector2D F) : Vector2D F :=
  let desired := subR rnd target self.position
  let desired := normalizeR rnd sqrt desired
  let desired := smulR rnd desired MAX_SPEED
  let steer := subR rnd desired self.velocity
  clampForceR rnd sqrt steer

/-- One iteration of the loop of `cohesion` in rounded arithmetic. -/
def cohesionStepR (rnd sqrt : F → F) (self : Boid F) (acc : Vector2D F × Nat)
    (other : Boid F) : Vector2D F × Nat :=
  let d := magnitudeR rnd sqrt (subR rnd self.position other.position)
  if d > 0 ∧ d < NEIGHBOR_RADIUS then (addR rnd acc.1 other.position, acc.2 + 1) else acc

/-- The method `cohesion` in rounded arithmetic. -/
def cohesionR (rnd sqrt : F → F) (self : Boid F) (boids : List (Boid F)) : Vector2D F :=
  let acc := boids.foldl (cohesionStepR rnd sqrt self) (Vector2D.zero, 0)
  let sum := acc.1
  let count := acc.2
  if count > 0 then
    let sum := sdivR rnd sum (count : F)
    seekR rnd sqrt self sum
  else Vector2D.zero

/-- The method `update` in rounded arithmetic. -/
def updateR (rnd sqrt : F → F) (self : Boid F) (boids : List (Boid F)) : Boid F :=
  let separation := separateR rnd sqrt self boids
  let alignment := alignR rnd sqrt self boids
  let cohesionForce := cohesionR rnd sqrt self boids
  let acceleration := addR rnd (addR rnd separation alignment) cohesionForce
  let velocity := addR rnd self.velocity acceleration
  let velocity := normalizeR rnd sqrt velocity
  let velocity := smulR rnd velocity MAX_SPEED
  let position := addR rnd self.position velocity
  let position : Vector2D F := if position.x < 0 then ⟨(WIDTH : F), position.y⟩ else position
  let position : Vector2D F := if position.x > (WIDTH : F) then ⟨0, position.y⟩ else position
  let position : Vector2D F := if position.y < 0 then ⟨position.x, (HEIGHT : F)⟩ else position
  let position : Vector2D F := if position.y > (HEIGHT : F) then ⟨position.x, 0⟩ else position
  ⟨position, velocity⟩

end Boid

/-- The update loop of `main` in rounded arithmetic, as `tickLoop`. -/
def tickLoopR (rnd sqrt : F → F) : List (Boid F) → List (Boid F) → List (Boid F)
  | done, [] => done
  | done, b :: rest =>
    tickLoopR rnd sqrt (done ++ [Boid.updateR rnd sqrt b (done ++ b :: rest)]) rest

/-- One pass of the update loop in rounded arithmetic. -/
def tickR (rnd sqrt : F → F) (boids : List (Boid F)) : List (Boid F) :=
  tickLoopR rnd sqrt [] boids

/-! ## IEEE binary32 on the rationals

A `float` is a rational number `n * 2 ^ e` with `|n| < 2 ^ 24`.  `round32`
rounds a rational to the nearest such number, ties to the even significand,
with gradual underflow below `2 ^ (-126)`; overflow is not modelled (no value
of the statements below comes near `2 ^ 128`). -/

/-- The power `2 ^ e` for an integer exponent. -/
def pow2 (e : Int) : ℚ :=
  if 0 ≤ e then ((2 ^ e.toNat : Nat) : ℚ) else 1 / ((2 ^ (-e).toNat : Nat) : ℚ)

/-- Halving with fuel: the number of times `n` can be halved before it drops below 2. -/
def log2Fuel : Nat → Nat → Nat
  | 0, _ => 0
  | fuel + 1, n => if n < 2 then 0 else log2Fuel fuel (n / 2) + 1

/-- The binary logarithm `⌊log₂ n⌋` of a positive natural number. -/
def natLog2 (n : Nat) : Nat := log2Fuel n n

/-- The binary exponent of a non-zero rational: the `e` with `2 ^ e ≤ |q| < 2 ^ (e + 1)`. -/
def ilog2 (q : ℚ) : Int :=
  let a : ℚ := if q < 0 then -q else q
  let e0 : Int := (natLog2 a.num.natAbs : Int) - (natLog2 a.den : Int)
  if pow2 e0 ≤ a then e0 else e0 - 1

/-- Rounding of a non-negative or negative scaled value `t` to the nearest
integer, ties to even. -/
def roundEven (t : ℚ) : Int :=
  let f := Rat.floor t
  let r := t - (f : ℚ)
  if r < 1 / 2 then f else if 1 / 2 < r then f + 1 else if f % 2 = 0 then f else f + 1

/-- Rounding to the nearest binary32 value, ties to even. -/
def round32 (q : ℚ) : ℚ :=
  if q = 0 then 0
  else
    let u := pow2 (max (ilog2 q - 23) (-149))
    (roundEven (q / u) : ℚ) * u

/-- Bitwise integer square root: the largest `r` below `2 ^ k` above the
accumulator with `r * r ≤ n`. -/
def isqrtAux (n : Nat) : Nat → Nat → Nat
  | 0, r => r
  | k + 1, r => if (r + 2 ^ k) * (r + 2 ^ k) ≤ n then isqrtAux n k (r + 2 ^ k) else isqrtAux n k r

/-- The integer square root `⌊√n⌋`. -/
def isqrt (n : Nat) : Nat := isqrtAux n (natLog2 n / 2 + 1) 0

/-- The function `std::sqrt` on `float`: the exact root rounded to the nearest
binary32 value (IEEE 754 requires the correctly rounded result). -/
def sqrt32 (x : ℚ) : ℚ :=
  if x ≤ 0 then 0
  else
    let u := pow2 (ilog2 x / 2 - 23)
    let y := x / (u * u)
    let f := isqrt (Rat.floor y).toNat
    let h : ℚ := ((f : ℚ) + 1 / 2) * ((f : ℚ) + 1 / 2)
    let n : Nat := if y < h then f else if h < y then f + 1 else if f % 2 = 0 then f else f + 1
    (n : ℚ) * u

/-! ## Sample inputs for the binary32 statements -/

/-- The constructed boid at `(100, 100)` with both draws `0`: velocity `(-1.5, -1.5)`. -/
def floatDiag : Boid ℚ := Boid.construct 100 100 0 0

/-- The constructed boid at `(101, 103)` with both draws `0`, `√10` away from `floatDiag`. -/
def floatNear : Boid ℚ := Boid.construct 101 103 0 0

/-- The constructed boid at `(100, 100)` with draws `2` and `0`: velocity `(0.5, -1.5)`. -/
def floatSelf : Boid ℚ := Boid.construct 100 100 2 0

/-- A boid at `(107, 106)`: offset `(7, 6)` from `floatSelf`. -/
def floatRayNear : Boid ℚ := Boid.construct 107 106 0 0

/-- A boid at `(110.5, 109)`: offset `(10.5, 9)` from `floatSelf`, on the same ray as
`floatRayNear` at `1.5` times the distance. -/
def floatRayFar : Boid ℚ := Boid.construct (221 / 2) 109 0 0

/-- The constructed boid at `(110, 100)` with draws `0` and `2`: velocity `(-1.5, 0.5)`. -/
def floatEast : Boid ℚ := Boid.construct 110 100 0 2

/-- The binary32 velocity that `floatEast` has after one tick of `[floatDiag, floatEast]`. -/
def floatVelocity : Vector2D ℚ := ⟨-6130855 / 2097152, 5649829 / 8388608⟩

/-- A boid at `(x, 100)` flying with `floatVelocity`. -/
def floatFlock (x : ℚ) : Boid ℚ := ⟨⟨x, 100⟩, floatVelocity⟩

/-! ## Facts about the vector operations over the reals -/

section VectorFacts

open Vector2D

theorem magnitude_nonneg (v : Vector2D ℝ) : 0 ≤ magnitude Real.sqrt v :=
  Real.sqrt_nonneg _

theorem sumsq_nonneg (v : Vector2D ℝ) : 0 ≤ v.x * v.x + v.y * v.y := by
  nlinarith [mul_self_nonneg v.x, mul_self_nonneg v.y]

theorem magnitude_mul_self (v : Vector2D ℝ) :
    magnitude Real.sqrt v * magnitude Real.sqrt v = v.x * v.x + v.y * v.y :=
  Real.mul_self_sqrt (sumsq_nonneg v)

theorem magnitude_eq_of_mul_self (v : Vector2D ℝ) (c : ℝ) (hc : 0 ≤ c)
    (h : v.x * v.x + v.y * v.y = c * c) : magnitude Real.sqrt v = c := by
  unfold magnitude
  rw [h]
  exact Real.sqrt_mul_self hc

theorem magnitude_zero : magnitude Real.sqrt (Vector2D.zero : Vector2D ℝ) = 0 :=
  magnitude_eq_of_mul_self _ 0 le_rfl (by simp [Vector2D.zero])

theorem eq_zero_of_magnitude_eq_zero (v : Vector2D ℝ) (h : magnitude Real.sqrt v = 0) :
    v = Vector2D.zero := by
  have h2 := magnitude_mul_self v
  rw [h] at h2
  have hx : v.x = 0 := by nlinarith [mul_self_nonneg v.x, mul_self_nonneg v.y]
  have hy : v.y = 0 := by nlinarith [mul_self_nonneg v.x, mul_self_nonneg v.y]
  ext
  · exact hx
  · exact hy

theorem magnitude_pos_of_ne_zero (v : Vector2D ℝ) (h : v ≠ Vector2D.zero) :
    0 < magnitude Real.sqrt v := by
  rcases (magnitude_nonneg v).lt_or_eq with h1 | h1
  · exact h1
  · exact absurd (eq_zero_of_magnitude_eq_zero v h1.symm) h

theorem magnitude_smul (v : Vector2D ℝ) (s : ℝ) (hs : 0 ≤ s) :
    magnitude Real.sqrt (smul v s) = magnitude Real.sqrt v * s := by
  apply magnitude_eq_of_mul_self _ _ (mul_nonneg (magnitude_nonneg v) hs)
  have h := magnitude_mul_self v
  simp only [smul]
  linear_combination (-(s * s)) * h

theorem normalize_of_pos (v : Vector2D ℝ) (h : 0 < magnitude Real.sqrt v) :
    normalize Real.sqrt v = sdiv v (magnitude Real.sqrt v) := by
  simp [Vector2D.normalize, sdiv, h]

theorem normalize_of_not_pos (v : Vector2D ℝ) (h : ¬ 0 < magnitude Real.sqrt v) :
    normalize Real.sqrt v = v := by
  simp [Vector2D.normalize, h]

theorem magnitude_normalize (v : Vector2D ℝ) (h : 0 < magnitude Real.sqrt v) :
    magnitude Real.sqrt (normalize Real.sqrt v) = 1 := by
  rw [normalize_of_pos v h]
  apply magnitude_eq_of_mul_self _ _ zero_le_one
  have h2 := magnitude_mul_self v
  have hm : magnitude Real.sqrt v ≠ 0 := ne_of_gt h
  simp only [sdiv]
  field_simp
  linarith [h2]

end VectorFacts

/-! ## Boids without neighbours -/

section NoNeighbour

open Vector2D Boid

theorem not_inSeparation_of_not_inNeighborRadius (sqrt : F → F) (b o : Boid F)
    (h : ¬ inNeighborRadius sqrt b o) : ¬ inSeparation sqrt b o := by
  intro hs
  apply h
  refine ⟨hs.1, lt_trans hs.2 ?_⟩
  simp only [DESIRED_SEPARATION, NEIGHBOR_RADIUS]
  norm_num

theorem foldl_separateStep_skip (sqrt : F → F) (b : Boid F) (L : List (Boid F))
    (h : ∀ o ∈ L, ¬ inSeparation sqrt b o) (acc : Vector2D F × Nat) :
    L.foldl (separateStep sqrt b) acc = acc := by
  induction L generalizing acc with
  | nil => rfl
  | cons o rest ih =>
    have ho : ¬ inSeparation sqrt b o := h o (List.mem_cons_self _ _)
    have hstep : separateStep sqrt b acc o = acc := by
      unfold inSeparation at ho
      simp only [separateStep, if_neg ho]
    rw [List.foldl_cons, hstep]
    exact ih (fun o2 ho2 => h o2 (List.mem_cons_of_mem _ ho2)) acc

theorem foldl_alignStep_skip (sqrt : F → F) (b : Boid F) (L : List (Boid F))
    (h : ∀ o ∈ L, ¬ inNeighborRadius sqrt b o) (acc : Vector2D F × Nat) :
    L.foldl (alignStep sqrt b) acc = acc := by
  induction L generalizing acc with
  | nil => rfl
  | cons o rest ih =>
    have ho : ¬ inNeighborRadius sqrt b o := h o (List.mem_cons_self _ _)
    have hstep : alignStep sqrt b acc o = acc := by
      unfold inNeighborRadius at ho
      simp only [alignStep, if_neg ho]
    rw [List.foldl_cons, hstep]
    exact ih (fun o2 ho2 => h o2 (List.mem_cons_of_mem _ ho2)) acc

theorem foldl_cohesionStep_skip (sqrt : F → F) (b : Boid F) (L : List (Boid F))
    (h : ∀ o ∈ L, ¬ inNeighborRadius sqrt b o) (acc : Vector2D F × Nat) :
    L.foldl (cohesionStep sqrt b) acc = acc := by
  induction L generalizing acc with
  | nil => rfl
  | cons o rest ih =>
    have ho : ¬ inNeighborRadius sqrt b o := h o (List.mem_cons_self _ _)
    have hstep : cohesionStep sqrt b acc o = acc := by
      unfold inNeighborRadius at ho
      simp only [cohesionStep, if_neg ho]
    rw [List.foldl_cons, hstep]
    exact ih (fun o2 ho2 => h o2 (List.mem_cons_of_mem _ ho2)) acc

theorem separate_of_no_neighbour (b : Boid ℝ) (L : List (Boid ℝ))
    (h : ∀ o ∈ L, ¬ inSeparation Real.sqrt b o) :
    separate Real.sqrt b L = Vector2D.zero := by
  simp [separate, foldl_separateStep_skip Real.sqrt b L h, magnitude_zero]

theorem align_of_no_neighbour (sqrt : F → F) (b : Boid F) (L : List (Boid F))
    (h : ∀ o ∈ L, ¬ inNeighborRadius sqrt b o) :
    align sqrt b L = Vector2D.zero := by
  simp [align, foldl_alignStep_skip sqrt b L h]

theorem cohesion_of_no_neighbour (sqrt : F → F) (b : Boid F) (L : List (Boid F))
    (h : ∀ o ∈ L, ¬ inNeighborRadius sqrt b o) :
    cohesion sqrt b L = Vector2D.zero := by
  simp [cohesion, foldl_cohesionStep_skip sqrt b L h]

theorem add_zero_forces (v : Vector2D F) :
    add v (add (add Vector2D.zero Vector2D.zero) Vector2D.zero) = v := by
  ext <;> simp [add, Vector2D.zero]

theorem update_velocity (sqrt : F → F) (b : Boid F) (L : List (Boid F)) :
    (update sqrt b L).velocity =
      smul (Vector2D.normalize sqrt (add b.velocity (acceleration sqrt b L))) MAX_SPEED := by
  simp [update, acceleration]

end NoNeighbour

/-! ## Speed after `update` (C1) -/

section Speed

open Vector2D Boid

theorem sampleRest_alone (o : Boid ℝ) (ho : o ∈ [(sampleRest : Boid ℝ)]) :
    ¬ inNeighborRadius Real.sqrt sampleRest o := by
  rw [List.mem_singleton] at ho
  subst ho
  simp [inNeighborRadius, sampleRest, sub, magnitude]

theorem sampleLeft_alone (o : Boid ℝ) (ho : o ∈ [(sampleLeft : Boid ℝ)]) :
    ¬ inNeighborRadius Real.sqrt sampleLeft o := by
  rw [List.mem_singleton] at ho
  subst ho
  simp [inNeighborRadius, sampleLeft, sub, magnitude]

theorem acceleration_of_no_neighbour (b : Boid ℝ) (L : List (Boid ℝ))
    (h : ∀ o ∈ L, ¬ inNeighborRadius Real.sqrt b o) :
    acceleration Real.sqrt b L = Vector2D.zero := by
  have hs : ∀ o ∈ L, ¬ inSeparation Real.sqrt b o := fun o ho =>
    not_inSeparation_of_not_inNeighborRadius Real.sqrt b o (h o ho)
  rw [acceleration, separate_of_no_neighbour b L hs, align_of_no_neighbour Real.sqrt b L h,
    cohesion_of_no_neighbour Real.sqrt b L h]
  ext <;> simp [add, Vector2D.zero]

/-- C1, as stated, fails: a boid at rest that is alone in its collection has
zero acceleration, `normalize` leaves the zero velocity alone, and the speed
after `update` is 0 rather than `MAX_SPEED`. -/
theorem update_speed_counterexample :
    magnitude Real.sqrt (update Real.sqrt (sampleRest : Boid ℝ) [sampleRest]).velocity
      ≠ MAX_SPEED := by
  rw [update_velocity, acceleration_of_no_neighbour _ _ sampleRest_alone]
  have h0 : add (sampleRest : Boid ℝ).velocity Vector2D.zero = Vector2D.zero := by
    ext <;> simp [add, Vector2D.zero, sampleRest]
  rw [h0, normalize_of_not_pos _ (by rw [magnitude_zero]; exact lt_irrefl 0),
    magnitude_smul _ _ (by simp [MAX_SPEED]), magnitude_zero]
  simp [MAX_SPEED]

/-- C1, amended: whenever the pre-update velocity plus the summed
acceleration is not the zero vector, the velocity after `update` has
magnitude exactly `MAX_SPEED`, whatever the neighbour configuration. -/
theorem update_speed_of_ne_zero (b : Boid ℝ) (L : List (Boid ℝ))
    (h : add b.velocity (acceleration Real.sqrt b L) ≠ Vector2D.zero) :
    magnitude Real.sqrt (update Real.sqrt b L).velocity = MAX_SPEED := by
  rw [update_velocity, magnitude_smul _ _ (by simp [MAX_SPEED]),
    magnitude_normalize _ (magnitude_pos_of_ne_zero _ h), one_mul]

theorem sampleLeft_alone_ne_zero :
    add (sampleLeft : Boid ℝ).velocity (acceleration Real.sqrt sampleLeft [sampleLeft])
      ≠ Vector2D.zero := by
  rw [acceleration_of_no_neighbour _ _ sampleLeft_alone]
  intro h
  have hx := congrArg Vector2D.x h
  simp [add, Vector2D.zero, sampleLeft] at hx

/-- Witness for C1 (amended): `sampleLeft` alone in its collection. -/
theorem update_speed_witness :
    add (sampleLeft : Boid ℝ).velocity (acceleration Real.sqrt sampleLeft [sampleLeft])
        ≠ Vector2D.zero ∧
      magnitude Real.sqrt (update Real.sqrt (sampleLeft : Boid ℝ) [sampleLeft]).velocity
        = MAX_SPEED :=
  ⟨sampleLeft_alone_ne_zero, update_speed_of_ne_zero _ _ sampleLeft_alone_ne_zero⟩

end Speed

/-! ## Position after `update` (C3, C4) -/

section Wrap

open Vector2D Boid

theorem update_position (b : Boid ℝ) (L : List (Boid ℝ)) :
    (update Real.sqrt b L).position =
      ⟨if b.position.x + (update Real.sqrt b L).velocity.x < 0 then (WIDTH : ℝ)
         else if b.position.x + (update Real.sqrt b L).velocity.x > (WIDTH : ℝ) then 0
         else b.position.x + (update Real.sqrt b L).velocity.x,
       if b.position.y + (update Real.sqrt b L).velocity.y < 0 then (HEIGHT : ℝ)
         else if b.position.y + (update Real.sqrt b L).velocity.y > (HEIGHT : ℝ) then 0
         else b.position.y + (update Real.sqrt b L).velocity.y⟩ := by
  simp only [update, add, WIDTH, HEIGHT, Nat.cast_ofNat]
  generalize b.position.x + _ = px
  generalize b.position.y + _ = py
  by_cases h1 : px < 0 <;> by_cases h2 : px > 800 <;> by_cases h3 : py < 0 <;>
    by_cases h4 : py > 600 <;> simp [h1, h2, h3, h4]

/-- C3: after `update` the position lies in `[0, WIDTH] × [0, HEIGHT]`,
whatever the starting position, the velocity and the collection. -/
theorem update_position_in_field (b : Boid ℝ) (L : List (Boid ℝ)) :
    0 ≤ (update Real.sqrt b L).position.x ∧ (update Real.sqrt b L).position.x ≤ (WIDTH : ℝ) ∧
      0 ≤ (update Real.sqrt b L).position.y ∧
        (update Real.sqrt b L).position.y ≤ (HEIGHT : ℝ) := by
  rw [update_position]
  simp only [WIDTH, HEIGHT, Nat.cast_ofNat]
  refine ⟨?_, ?_, ?_, ?_⟩ <;> split_ifs <;> linarith

/-- C4: on each axis the coordinate `c` reached by adding the new velocity
becomes the max edge when `c < 0`, becomes 0 when `c` exceeds the max edge,
and is kept when `0 ≤ c ≤` max edge (the edges themselves do not wrap). -/
theorem update_position_wrap (b : Boid ℝ) (L : List (Boid ℝ)) :
    (update Real.sqrt b L).position.x =
        (if b.position.x + (update Real.sqrt b L).velocity.x < 0 then (WIDTH : ℝ)
         else if b.position.x + (update Real.sqrt b L).velocity.x > (WIDTH : ℝ) then 0
         else b.position.x + (update Real.sqrt b L).velocity.x) ∧
      (update Real.sqrt b L).position.y =
        (if b.position.y + (update Real.sqrt b L).velocity.y < 0 then (HEIGHT : ℝ)
         else if b.position.y + (update Real.sqrt b L).velocity.y > (HEIGHT : ℝ) then 0
         else b.position.y + (update Real.sqrt b L).velocity.y) :=
  ⟨congrArg Vector2D.x (update_position b L), congrArg Vector2D.y (update_position b L)⟩

end Wrap

/-! ## No neighbour in range (C6) and `normalize` at magnitude 0 (C10) -/

section Isolated

open Vector2D Boid

theorem magnitude_axis_x (a : ℝ) : magnitude Real.sqrt ⟨a, 0⟩ = |a| := by
  simp only [magnitude, mul_zero, add_zero]
  exact Real.sqrt_mul_self_eq_abs a

/-- C6: when no boid of the collection lies at a distance `d` from `b` with
`0 < d < NEIGHBOR_RADIUS`, the three rules return the zero vector and the
velocity after `update` is `MAX_SPEED` times the normalized old velocity. -/
theorem isolated_forces_zero (b : Boid ℝ) (L : List (Boid ℝ))
    (h : ∀ o ∈ L, ¬ inNeighborRadius Real.sqrt b o) :
    separate Real.sqrt b L = Vector2D.zero ∧ align Real.sqrt b L = Vector2D.zero ∧
      cohesion Real.sqrt b L = Vector2D.zero ∧
      (update Real.sqrt b L).velocity =
        smul (Vector2D.normalize Real.sqrt b.velocity) MAX_SPEED := by
  have hs : ∀ o ∈ L, ¬ inSeparation Real.sqrt b o := fun o ho =>
    not_inSeparation_of_not_inNeighborRadius Real.sqrt b o (h o ho)
  refine ⟨separate_of_no_neighbour b L hs, align_of_no_neighbour Real.sqrt b L h,
    cohesion_of_no_neighbour Real.sqrt b L h, ?_⟩
  rw [update_velocity, acceleration_of_no_neighbour b L h]
  have h0 : add b.velocity Vector2D.zero = b.velocity := by
    ext <;> simp [add, Vector2D.zero]
  rw [h0]

theorem sampleLeft_isolated (o : Boid ℝ) (ho : o ∈ [(sampleLeft : Boid ℝ), sampleFar]) :
    ¬ inNeighborRadius Real.sqrt sampleLeft o := by
  simp only [List.mem_cons, List.mem_singleton, List.not_mem_nil, or_false] at ho
  rcases ho with rfl | rfl
  · simp [inNeighborRadius, sampleLeft, sub, magnitude]
  · have hd : magnitude Real.sqrt
        (sub (sampleLeft : Boid ℝ).position (sampleFar : Boid ℝ).position) = 52 := by
      simp only [sampleLeft, sampleFar, sub]
      norm_num [magnitude_axis_x]
    simp only [inNeighborRadius, hd, NEIGHBOR_RADIUS]
    norm_num

/-- Witness for C6: `sampleLeft` with itself and a boid 52 units away. -/
theorem isolated_forces_zero_witness :
    (∀ o ∈ [(sampleLeft : Boid ℝ), sampleFar], ¬ inNeighborRadius Real.sqrt sampleLeft o) ∧
      (separate Real.sqrt (sampleLeft : Boid ℝ) [sampleLeft, sampleFar] = Vector2D.zero ∧
        align Real.sqrt (sampleLeft : Boid ℝ) [sampleLeft, sampleFar] = Vector2D.zero ∧
        cohesion Real.sqrt (sampleLeft : Boid ℝ) [sampleLeft, sampleFar] = Vector2D.zero ∧
        (update Real.sqrt (sampleLeft : Boid ℝ) [sampleLeft, sampleFar]).velocity =
          smul (Vector2D.normalize Real.sqrt (sampleLeft : Boid ℝ).velocity) MAX_SPEED) :=
  ⟨sampleLeft_isolated, isolated_forces_zero _ _ sampleLeft_isolated⟩

/-- C10: `normalize` leaves a vector of magnitude 0 unchanged, and the
checked `normalize` returns it without performing a division; this holds for
any field and any root function. -/
theorem normalize_of_magnitude_zero (sqrt : F → F) (v : Vector2D F)
    (h : magnitude sqrt v = 0) :
    Vector2D.normalize sqrt v = v ∧ normalizeChecked sqrt v = some v := by
  constructor
  · simp [Vector2D.normalize, h]
  · simp [normalizeChecked, h]

/-- Witness for C10: the zero vector over the reals. -/
theorem normalize_of_magnitude_zero_witness :
    magnitude Real.sqrt (Vector2D.zero : Vector2D ℝ) = 0 ∧
      (Vector2D.normalize Real.sqrt (Vector2D.zero : Vector2D ℝ) = Vector2D.zero ∧
        normalizeChecked Real.sqrt (Vector2D.zero : Vector2D ℝ) = some Vector2D.zero) :=
  ⟨magnitude_zero, normalize_of_magnitude_zero Real.sqrt Vector2D.zero magnitude_zero⟩

end Isolated

/-! ## Bounded steering (C7) -/

section Bounded

open Vector2D Boid

theorem dot_le_magnitude_mul (u v : Vector2D ℝ) :
    u.x * v.x + u.y * v.y ≤ magnitude Real.sqrt u * magnitude Real.sqrt v := by
  have hu := magnitude_mul_self u
  have hv := magnitude_mul_self v
  have hu0 := magnitude_nonneg u
  have hv0 := magnitude_nonneg v
  by_contra hlt
  push_neg at hlt
  have hp : 0 ≤ magnitude Real.sqrt u * magnitude Real.sqrt v := mul_nonneg hu0 hv0
  have hsq : (magnitude Real.sqrt u * magnitude Real.sqrt v) *
      (magnitude Real.sqrt u * magnitude Real.sqrt v) <
      (u.x * v.x + u.y * v.y) * (u.x * v.x + u.y * v.y) :=
    mul_self_lt_mul_self hp hlt
  have hcs : (magnitude Real.sqrt u * magnitude Real.sqrt v) *
      (magnitude Real.sqrt u * magnitude Real.sqrt v) =
      (u.x * u.x + u.y * u.y) * (v.x * v.x + v.y * v.y) := by
    rw [← hu, ← hv]; ring
  nlinarith [mul_self_nonneg (u.x * v.y - u.y * v.x)]

theorem magnitude_add_le (u v : Vector2D ℝ) :
    magnitude Real.sqrt (add u v) ≤ magnitude Real.sqrt u + magnitude Real.sqrt v := by
  have hu := magnitude_mul_self u
  have hv := magnitude_mul_self v
  have hd := dot_le_magnitude_mul u v
  have hs : 0 ≤ magnitude Real.sqrt u + magnitude Real.sqrt v :=
    add_nonneg (magnitude_nonneg u) (magnitude_nonneg v)
  unfold magnitude at *
  rw [Real.sqrt_le_iff]
  refine ⟨hs, ?_⟩
  simp only [add]
  nlinarith

theorem magnitude_clampForce_le (v : Vector2D ℝ) :
    magnitude Real.sqrt (clampForce Real.sqrt v) ≤ MAX_FORCE := by
  unfold clampForce
  split_ifs with h
  · have hpos : 0 < magnitude Real.sqrt v := lt_trans (by simp [MAX_FORCE]) h
    rw [magnitude_smul _ _ (by simp [MAX_FORCE]), magnitude_normalize _ hpos, one_mul]
  · exact not_lt.mp h

theorem MAX_FORCE_nonneg : (0 : ℝ) ≤ MAX_FORCE := by
  simp [MAX_FORCE]

theorem magnitude_separate_le (b : Boid ℝ) (L : List (Boid ℝ)) :
    magnitude Real.sqrt (separate Real.sqrt b L) ≤ MAX_FORCE := by
  unfold separate
  simp only []
  split_ifs with h1 h2 h2
  · exact magnitude_clampForce_le _
  · exact le_trans (not_lt.mp h2) MAX_FORCE_nonneg
  · exact magnitude_clampForce_le _
  · exact le_trans (not_lt.mp h2) MAX_FORCE_nonneg

theorem magnitude_align_le (b : Boid ℝ) (L : List (Boid ℝ)) :
    magnitude Real.sqrt (align Real.sqrt b L) ≤ MAX_FORCE := by
  unfold align
  simp only []
  split_ifs with h1
  · exact magnitude_clampForce_le _
  · rw [magnitude_zero]; exact MAX_FORCE_nonneg

theorem magnitude_seek_le (b : Boid ℝ) (target : Vector2D ℝ) :
    magnitude Real.sqrt (seek Real.sqrt b target) ≤ MAX_FORCE :=
  magnitude_clampForce_le _

theorem magnitude_cohesion_le (b : Boid ℝ) (L : List (Boid ℝ)) :
    magnitude Real.sqrt (cohesion Real.sqrt b L) ≤ MAX_FORCE := by
  unfold cohesion
  simp only []
  split_ifs with h1
  · exact magnitude_seek_le _ _
  · rw [magnitude_zero]; exact MAX_FORCE_nonneg

theorem magnitude_acceleration_le (b : Boid ℝ) (L : List (Boid ℝ)) :
    magnitude Real.sqrt (acceleration Real.sqrt b L) ≤ 3 * MAX_FORCE := by
  unfold acceleration
  have h1 := magnitude_add_le (add (separate Real.sqrt b L) (align Real.sqrt b L))
    (cohesion Real.sqrt b L)
  have h2 := magnitude_add_le (separate Real.sqrt b L) (align Real.sqrt b L)
  have h3 := magnitude_separate_le b L
  have h4 := magnitude_align_le b L
  have h5 := magnitude_cohesion_le b L
  linarith

/-- C7, amended: in exact real arithmetic `separate`, `align`, `cohesion` and
`seek` each return a vector of magnitude at most `MAX_FORCE`, and the
acceleration summed in `update` has magnitude at most `3 * MAX_FORCE`. -/
theorem steering_bounded (b : Boid ℝ) (L : List (Boid ℝ)) (target : Vector2D ℝ) :
    magnitude Real.sqrt (separate Real.sqrt b L) ≤ MAX_FORCE ∧
      magnitude Real.sqrt (align Real.sqrt b L) ≤ MAX_FORCE ∧
      magnitude Real.sqrt (cohesion Real.sqrt b L) ≤ MAX_FORCE ∧
      magnitude Real.sqrt (seek Real.sqrt b target) ≤ MAX_FORCE ∧
      magnitude Real.sqrt
        (add (add (separate Real.sqrt b L) (align Real.sqrt b L)) (cohesion Real.sqrt b L))
          ≤ 3 * MAX_FORCE :=
  ⟨magnitude_separate_le b L, magnitude_align_le b L, magnitude_cohesion_le b L,
    magnitude_seek_le b target, magnitude_acceleration_le b L⟩

end Bounded

/-! ## No division by zero (C8) -/

section Checked

open Vector2D Boid

theorem checkedDiv_of_ne (a b : F) (h : b ≠ 0) : checkedDiv a b = some (a / b) := by
  simp [checkedDiv, h]

theorem sdivChecked_of_ne (a : Vector2D F) (s : F) (h : s ≠ 0) :
    sdivChecked a s = some (sdiv a s) := by
  simp [sdivChecked, sdiv, checkedDiv_of_ne _ _ h]

theorem normalizeChecked_eq (sqrt : F → F) (v : Vector2D F) :
    normalizeChecked sqrt v = some (Vector2D.normalize sqrt v) := by
  unfold normalizeChecked Vector2D.normalize
  by_cases h : magnitude sqrt v > 0
  · simp [h, checkedDiv_of_ne _ _ (ne_of_gt h)]
  · simp [h]

theorem clampForceChecked_eq (sqrt : F → F) (v : Vector2D F) :
    clampForceChecked sqrt v = some (clampForce sqrt v) := by
  unfold clampForceChecked clampForce
  by_cases h : magnitude sqrt v > MAX_FORCE
  · simp [h, normalizeChecked_eq]
  · simp [h]

theorem separateStepChecked_eq (sqrt : F → F) (b : Boid F) (acc : Vector2D F × Nat)
    (o : Boid F) : separateStepChecked sqrt b acc o = some (separateStep sqrt b acc o) := by
  unfold separateStepChecked separateStep
  by_cases h : magnitude sqrt (sub b.position o.position) > 0 ∧
      magnitude sqrt (sub b.position o.position) < DESIRED_SEPARATION
  · simp [h, normalizeChecked_eq, sdivChecked_of_ne _ _ (ne_of_gt h.1)]
  · simp [h]

theorem foldlM_separateStepChecked (sqrt : F → F) (b : Boid F) (L : List (Boid F))
    (acc : Vector2D F × Nat) :
    L.foldlM (separateStepChecked sqrt b) acc = some (L.foldl (separateStep sqrt b) acc) := by
  induction L generalizing acc with
  | nil => rfl
  | cons o rest ih =>
    rw [List.foldlM_cons, separateStepChecked_eq, List.foldl_cons]
    exact ih _

theorem count_cast_ne_zero (n : Nat) (h : n > 0) : (n : F) ≠ 0 :=
  Nat.cast_ne_zero.mpr (Nat.pos_iff_ne_zero.mp h)

theorem separateChecked_eq (sqrt : F → F) (b : Boid F) (L : List (Boid F)) :
    separateChecked sqrt b L = some (separate sqrt b L) := by
  unfold separateChecked separate
  rw [foldlM_separateStepChecked]
  by_cases hc : (L.foldl (separateStep sqrt b) (Vector2D.zero, 0)).2 > 0
  · by_cases hm : magnitude sqrt (sdiv (L.foldl (separateStep sqrt b) (Vector2D.zero, 0)).1
        (((L.foldl (separateStep sqrt b) (Vector2D.zero, 0)).2 : Nat) : F)) > 0
    · simp [hc, hm, sdivChecked_of_ne _ _ (count_cast_ne_zero _ hc), normalizeChecked_eq,
        clampForceChecked_eq]
    · simp [hc, hm, sdivChecked_of_ne _ _ (count_cast_ne_zero _ hc)]
  · by_cases hm : magnitude sqrt (L.foldl (separateStep sqrt b) (Vector2D.zero, 0)).1 > 0
    · simp [hc, hm, normalizeChecked_eq, clampForceChecked_eq]
    · simp [hc, hm]

theorem alignChecked_eq (sqrt : F → F) (b : Boid F) (L : List (Boid F)) :
    alignChecked sqrt b L = some (align sqrt b L) := by
  unfold alignChecked align
  by_cases hc : (L.foldl (alignStep sqrt b) (Vector2D.zero, 0)).2 > 0
  · simp [hc, sdivChecked_of_ne _ _ (count_cast_ne_zero _ hc), normalizeChecked_eq,
      clampForceChecked_eq]
  · simp [hc]

theorem seekChecked_eq (sqrt : F → F) (b : Boid F) (target : Vector2D F) :
    seekChecked sqrt b target = some (seek sqrt b target) := by
  simp [seekChecked, seek, normalizeChecked_eq, clampForceChecked_eq]

theorem cohesionChecked_eq (sqrt : F → F) (b : Boid F) (L : List (Boid F)) :
    cohesionChecked sqrt b L = some (cohesion sqrt b L) := by
  unfold cohesionChecked cohesion
  by_cases hc : (L.foldl (cohesionStep sqrt b) (Vector2D.zero, 0)).2 > 0
  · simp [hc, sdivChecked_of_ne _ _ (count_cast_ne_zero _ hc), seekChecked_eq]
  · simp [hc]

theorem updateChecked_eq (sqrt : F → F) (b : Boid F) (L : List (Boid F)) :
    updateChecked sqrt b L = some (update sqrt b L) := by
  simp [updateChecked, update, separateChecked_eq, alignChecked_eq, cohesionChecked_eq,
    normalizeChecked_eq]

/-- C8: no division of `update`, `separate`, `align`, `cohesion`, `seek` or
`normalize` meets a zero divisor: with every division checked, each of them
still returns the result of the unchecked code, for every boid, every
collection (empty and coincident ones included) and every target. -/
theorem no_division_by_zero (sqrt : F → F) (b : Boid F) (L : List (Boid F))
    (target v : Vector2D F) :
    updateChecked sqrt b L = some (update sqrt b L) ∧
      separateChecked sqrt b L = some (separate sqrt b L) ∧
      alignChecked sqrt b L = some (align sqrt b L) ∧
      cohesionChecked sqrt b L = some (cohesion sqrt b L) ∧
      seekChecked sqrt b target = some (seek sqrt b target) ∧
      normalizeChecked sqrt v = some (Vector2D.normalize sqrt v) :=
  ⟨updateChecked_eq sqrt b L, separateChecked_eq sqrt b L, alignChecked_eq sqrt b L,
    cohesionChecked_eq sqrt b L, seekChecked_eq sqrt b target, normalizeChecked_eq sqrt v⟩

end Checked

/-! ## Separation of a close pair (C5) -/

section Pair

open Vector2D Boid

theorem magnitude_sub_self (p : Vector2D ℝ) : magnitude Real.sqrt (sub p p) = 0 := by
  simp [magnitude, sub]

theorem magnitude_sdiv (v : Vector2D ℝ) (c : ℝ) (hc : 0 < c) :
    magnitude Real.sqrt (sdiv v c) = magnitude Real.sqrt v / c := by
  apply magnitude_eq_of_mul_self _ _ (div_nonneg (magnitude_nonneg v) hc.le)
  have h := magnitude_mul_self v
  have hc0 : c ≠ 0 := ne_of_gt hc
  simp only [sdiv]
  field_simp
  linarith [h]

theorem normalize_sdiv (v : Vector2D ℝ) (c : ℝ) (hc : 0 < c) :
    Vector2D.normalize Real.sqrt (sdiv v c) = Vector2D.normalize Real.sqrt v := by
  have hc0 : c ≠ 0 := ne_of_gt hc
  by_cases h : 0 < magnitude Real.sqrt v
  · have h2 : 0 < magnitude Real.sqrt (sdiv v c) := by
      rw [magnitude_sdiv v c hc]; exact div_pos h hc
    have hm : magnitude Real.sqrt v ≠ 0 := ne_of_gt h
    rw [normalize_of_pos _ h2, normalize_of_pos _ h, magnitude_sdiv v c hc]
    ext <;> simp only [sdiv] <;> field_simp
  · have hz : v = Vector2D.zero :=
      eq_zero_of_magnitude_eq_zero v (le_antisymm (not_lt.mp h) (magnitude_nonneg v))
    subst hz
    have h3 : sdiv (Vector2D.zero : Vector2D ℝ) c = Vector2D.zero := by
      ext <;> simp [sdiv, Vector2D.zero]
    rw [h3]

theorem zero_add_vec (v : Vector2D F) : add Vector2D.zero v = v := by
  ext <;> simp [add, Vector2D.zero]

theorem sdiv_one (v : Vector2D ℝ) : sdiv v ((1 : Nat) : ℝ) = v := by
  ext <;> simp [sdiv]

/-- The value of `separate` once the loop has met exactly one qualifying
neighbour, at position `q`. -/
theorem separate_of_fold_single (b : Boid ℝ) (L : List (Boid ℝ)) (q : Vector2D ℝ)
    (hd : 0 < magnitude Real.sqrt (sub b.position q))
    (hfold : L.foldl (separateStep Real.sqrt b) (Vector2D.zero, 0) =
      (add Vector2D.zero (sdiv (Vector2D.normalize Real.sqrt (sub b.position q))
        (magnitude Real.sqrt (sub b.position q))), 0 + 1)) :
    separate Real.sqrt b L =
      clampForce Real.sqrt
        (sub (smul (Vector2D.normalize Real.sqrt (sub b.position q)) MAX_SPEED) b.velocity) := by
  have hn : magnitude Real.sqrt (Vector2D.normalize Real.sqrt (sub b.position q)) = 1 :=
    magnitude_normalize _ hd
  have hm : 0 < magnitude Real.sqrt (sdiv (Vector2D.normalize Real.sqrt (sub b.position q))
      (magnitude Real.sqrt (sub b.position q))) := by
    rw [magnitude_sdiv _ _ hd, hn]; exact div_pos one_pos hd
  unfold separate
  simp only [hfold, zero_add_vec, zero_add, Nat.lt_one_iff, gt_iff_lt, Nat.lt_irrefl,
    zero_lt_one, if_true, sdiv_one, hm]
  rw [normalize_sdiv _ _ hd]
  have hnn : Vector2D.normalize Real.sqrt (Vector2D.normalize Real.sqrt (sub b.position q)) =
      Vector2D.normalize Real.sqrt (sub b.position q) := by
    rw [normalize_of_pos (Vector2D.normalize Real.sqrt (sub b.position q))
      (by rw [hn]; exact one_pos), hn]
    ext <;> simp [sdiv]
  rw [hnn]

theorem separateStep_of_inSeparation (b o : Boid ℝ) (acc : Vector2D ℝ × Nat)
    (h : inSeparation Real.sqrt b o) :
    separateStep Real.sqrt b acc o =
      (add acc.1 (sdiv (Vector2D.normalize Real.sqrt (sub b.position o.position))
        (magnitude Real.sqrt (sub b.position o.position))), acc.2 + 1) := by
  unfold inSeparation at h
  simp only [separateStep, if_pos h]

theorem sampleUp_distance :
    magnitude Real.sqrt (sub (sampleUpA : Boid ℝ).position (sampleUpB : Boid ℝ).position)
      = 10 := by
  simp only [sampleUpA, sampleUpB, sub]
  norm_num [magnitude_axis_x]

theorem sampleUp_inSeparation : inSeparation Real.sqrt (sampleUpA : Boid ℝ) sampleUpB := by
  unfold inSeparation
  rw [sampleUp_distance]
  norm_num [DESIRED_SEPARATION]

end Pair

/-! ## The update loop against the snapshot tick (C2) -/

section Loop

open Vector2D Boid

theorem tickLoop_eq_append (sqrt : F → F) (rest done : List (Boid F)) :
    ∃ tail : List (Boid F), tail.length = rest.length ∧ tickLoop sqrt done rest = done ++ tail := by
  induction rest generalizing done with
  | nil => exact ⟨[], rfl, by simp [tickLoop]⟩
  | cons b rest ih =>
    obtain ⟨tail, hlen, htail⟩ := ih (done ++ [update sqrt b (done ++ b :: rest)])
    refine ⟨update sqrt b (done ++ b :: rest) :: tail, by simp [hlen], ?_⟩
    rw [tickLoop, htail, List.append_assoc, List.singleton_append]

theorem tickLoop_split (sqrt : F → F) (pre : List (Boid F)) (b : Boid F)
    (post done : List (Boid F)) :
    ∃ pre2 post2 : List (Boid F), pre2.length = pre.length ∧ post2.length = post.length ∧
      tickLoop sqrt done (pre ++ b :: post) =
        done ++ (pre2 ++ update sqrt b (done ++ (pre2 ++ b :: post)) :: post2) := by
  induction pre generalizing done with
  | nil =>
    obtain ⟨tail, hlen, htail⟩ :=
      tickLoop_eq_append sqrt post (done ++ [update sqrt b (done ++ b :: post)])
    refine ⟨[], tail, rfl, hlen, ?_⟩
    rw [List.nil_append, tickLoop, htail]
    simp only [List.append_assoc, List.singleton_append, List.nil_append]
  | cons a pre ih =>
    obtain ⟨pre2, post2, h1, h2, h3⟩ :=
      ih (done ++ [update sqrt a (done ++ a :: (pre ++ b :: post))])
    refine ⟨update sqrt a (done ++ a :: (pre ++ b :: post)) :: pre2, post2, by simp [h1], h2, ?_⟩
    rw [List.cons_append, tickLoop, h3]
    simp only [List.append_assoc, List.singleton_append, List.cons_append, List.nil_append]

theorem update_sampleLeft :
    update Real.sqrt (sampleLeft : Boid ℝ) [sampleLeft, sampleRight] = sampleLeftNext := by
  norm_num [update, separate, separateStep, cohesion, cohesionStep, seek, align, alignStep,
    clampForce, Vector2D.normalize, magnitude_axis_x, add, sub, smul, sdiv, sampleLeft,
    sampleRight, sampleLeftNext, MAX_SPEED, MAX_FORCE, NEIGHBOR_RADIUS, DESIRED_SEPARATION,
    Vector2D.zero, abs_div, WIDTH, HEIGHT]

theorem update_sampleRight_snapshot :
    update Real.sqrt (sampleRight : Boid ℝ) [sampleLeft, sampleRight] = sampleRightTurned := by
  norm_num [update, separate, separateStep, cohesion, cohesionStep, seek, align, alignStep,
    clampForce, Vector2D.normalize, magnitude_axis_x, add, sub, smul, sdiv, sampleLeft,
    sampleRight, sampleRightTurned, MAX_SPEED, MAX_FORCE, NEIGHBOR_RADIUS, DESIRED_SEPARATION,
    Vector2D.zero, abs_div, WIDTH, HEIGHT]

theorem update_sampleRight_after :
    update Real.sqrt (sampleRight : Boid ℝ) [sampleLeftNext, sampleRight] = sampleFar := by
  norm_num [update, separate, separateStep, cohesion, cohesionStep, seek, align, alignStep,
    clampForce, Vector2D.normalize, magnitude_axis_x, add, sub, smul, sdiv, sampleLeftNext,
    sampleRight, sampleFar, MAX_SPEED, MAX_FORCE, NEIGHBOR_RADIUS, DESIRED_SEPARATION,
    Vector2D.zero, abs_div, WIDTH, HEIGHT]

theorem update_sampleRight_first :
    update Real.sqrt (sampleRight : Boid ℝ) [sampleRight, sampleLeft] = sampleRightTurned := by
  norm_num [update, separate, separateStep, cohesion, cohesionStep, seek, align, alignStep,
    clampForce, Vector2D.normalize, magnitude_axis_x, add, sub, smul, sdiv, sampleLeft,
    sampleRight, sampleRightTurned, MAX_SPEED, MAX_FORCE, NEIGHBOR_RADIUS, DESIRED_SEPARATION,
    Vector2D.zero, abs_div, WIDTH, HEIGHT]

theorem update_sampleLeft_after :
    update Real.sqrt (sampleLeft : Boid ℝ) [sampleRightTurned, sampleLeft] = sampleLeftNext := by
  norm_num [update, separate, separateStep, cohesion, cohesionStep, seek, align, alignStep,
    clampForce, Vector2D.normalize, magnitude_axis_x, add, sub, smul, sdiv, sampleLeft,
    sampleRightTurned, sampleLeftNext, MAX_SPEED, MAX_FORCE, NEIGHBOR_RADIUS,
    DESIRED_SEPARATION, Vector2D.zero, abs_div, WIDTH, HEIGHT]

theorem tick_sample :
    tick Real.sqrt [(sampleLeft : Boid ℝ), sampleRight] = [sampleLeftNext, sampleFar] := by
  simp only [tick, tickLoop, List.nil_append, List.singleton_append, List.cons_append,
    update_sampleLeft, update_sampleRight_after]

theorem tick_sample_swapped :
    tick Real.sqrt [(sampleRight : Boid ℝ), sampleLeft] = [sampleRightTurned, sampleLeftNext] := by
  simp only [tick, tickLoop, List.nil_append, List.singleton_append, List.cons_append,
    update_sampleRight_first, update_sampleLeft_after]

theorem tickSnapshot_sample :
    tickSnapshot Real.sqrt [(sampleLeft : Boid ℝ), sampleRight] =
      [sampleLeftNext, sampleRightTurned] := by
  simp only [tickSnapshot, List.map_cons, List.map_nil, update_sampleLeft,
    update_sampleRight_snapshot]

theorem sampleFar_ne_sampleRightTurned : (sampleFar : Boid ℝ) ≠ sampleRightTurned := by
  intro h
  have hx := congrArg (fun b : Boid ℝ => b.position.x) h
  norm_num [sampleFar, sampleRightTurned] at hx

theorem sampleFar_ne_sampleLeftNext : (sampleFar : Boid ℝ) ≠ sampleLeftNext := by
  intro h
  have hx := congrArg (fun b : Boid ℝ => b.position.x) h
  norm_num [sampleFar, sampleLeftNext] at hx

/-- C2, as stated, fails: in the collection `[sampleLeft, sampleRight]` the
loop first moves `sampleLeft` from 49 to 55 units away, so `sampleRight`
then finds no neighbour and keeps flying right to `(152, 100)`, whereas
computed from the pre-tick collection it turns around and reaches
`(146, 100)`. -/
theorem tick_ne_tickSnapshot :
    tick Real.sqrt [(sampleLeft : Boid ℝ), sampleRight] = [sampleLeftNext, sampleFar] ∧
      tickSnapshot Real.sqrt [(sampleLeft : Boid ℝ), sampleRight] =
        [sampleLeftNext, sampleRightTurned] ∧
      tick Real.sqrt [(sampleLeft : Boid ℝ), sampleRight] ≠
        tickSnapshot Real.sqrt [(sampleLeft : Boid ℝ), sampleRight] := by
  refine ⟨tick_sample, tickSnapshot_sample, ?_⟩
  rw [tick_sample, tickSnapshot_sample]
  intro h
  simp only [List.cons.injEq, and_true, true_and] at h
  exact sampleFar_ne_sampleRightTurned h

/-- C2, amended: one pass of the loop updates the boids in place, one after
the other.  For every boid `b` of the collection `pre ++ b :: post`, the
result of the tick is `pre2 ++ update b (pre2 ++ b :: post) :: post2`, where
`pre2` holds the already-updated states of the boids before `b`: the update
of `b` reads the post-update state of the earlier boids and the pre-tick
state of itself and of the later ones.  Only the first boid (`pre = []`) is
computed from the unmodified pre-tick collection. -/
theorem tick_sequential (sqrt : F → F) (pre : List (Boid F)) (b : Boid F)
    (post : List (Boid F)) :
    ∃ pre2 post2 : List (Boid F), pre2.length = pre.length ∧ post2.length = post.length ∧
      tick sqrt (pre ++ b :: post) =
        pre2 ++ update sqrt b (pre2 ++ b :: post) :: post2 := by
  obtain ⟨pre2, post2, h1, h2, h3⟩ := tickLoop_split sqrt pre b post []
  exact ⟨pre2, post2, h1, h2, by simpa [tick] using h3⟩

end Loop

/-! ## Insertion order (C9) -/

section Order

open Vector2D Boid

theorem add_right_comm_vec (a b c : Vector2D F) : add (add a b) c = add (add a c) b := by
  ext <;> simp only [add] <;> ring

theorem separateStep_comm (sqrt : F → F) (b : Boid F) (z : Vector2D F × Nat) (x y : Boid F) :
    separateStep sqrt b (separateStep sqrt b z x) y =
      separateStep sqrt b (separateStep sqrt b z y) x := by
  unfold separateStep
  by_cases hx : magnitude sqrt (sub b.position x.position) > 0 ∧
      magnitude sqrt (sub b.position x.position) < DESIRED_SEPARATION <;>
    by_cases hy : magnitude sqrt (sub b.position y.position) > 0 ∧
      magnitude sqrt (sub b.position y.position) < DESIRED_SEPARATION <;>
    simp only [hx, hy, and_self, if_true, if_false]
  rw [add_right_comm_vec]

theorem alignStep_comm (sqrt : F → F) (b : Boid F) (z : Vector2D F × Nat) (x y : Boid F) :
    alignStep sqrt b (alignStep sqrt b z x) y = alignStep sqrt b (alignStep sqrt b z y) x := by
  unfold alignStep
  by_cases hx : magnitude sqrt (sub b.position x.position) > 0 ∧
      magnitude sqrt (sub b.position x.position) < NEIGHBOR_RADIUS <;>
    by_cases hy : magnitude sqrt (sub b.position y.position) > 0 ∧
      magnitude sqrt (sub b.position y.position) < NEIGHBOR_RADIUS <;>
    simp only [hx, hy, and_self, if_true, if_false]
  rw [add_right_comm_vec]

theorem cohesionStep_comm (sqrt : F → F) (b : Boid F) (z : Vector2D F × Nat) (x y : Boid F) :
    cohesionStep sqrt b (cohesionStep sqrt b z x) y =
      cohesionStep sqrt b (cohesionStep sqrt b z y) x := by
  unfold cohesionStep
  by_cases hx : magnitude sqrt (sub b.position x.position) > 0 ∧
      magnitude sqrt (sub b.position x.position) < NEIGHBOR_RADIUS <;>
    by_cases hy : magnitude sqrt (sub b.position y.position) > 0 ∧
      magnitude sqrt (sub b.position y.position) < NEIGHBOR_RADIUS <;>
    simp only [hx, hy, and_self, if_true, if_false]
  rw [add_right_comm_vec]

theorem separate_perm (sqrt : F → F) (b : Boid F) (L L2 : List (Boid F)) (h : L.Perm L2) :
    separate sqrt b L = separate sqrt b L2 := by
  unfold separate
  rw [List.Perm.foldl_eq' h (fun x _ y _ z => separateStep_comm sqrt b z x y)]

theorem align_perm (sqrt : F → F) (b : Boid F) (L L2 : List (Boid F)) (h : L.Perm L2) :
    align sqrt b L = align sqrt b L2 := by
  unfold align
  rw [List.Perm.foldl_eq' h (fun x _ y _ z => alignStep_comm sqrt b z x y)]

theorem cohesion_perm (sqrt : F → F) (b : Boid F) (L L2 : List (Boid F)) (h : L.Perm L2) :
    cohesion sqrt b L = cohesion sqrt b L2 := by
  unfold cohesion
  rw [List.Perm.foldl_eq' h (fun x _ y _ z => cohesionStep_comm sqrt b z x y)]

theorem update_perm (sqrt : F → F) (b : Boid F) (L L2 : List (Boid F)) (h : L.Perm L2) :
    update sqrt b L = update sqrt b L2 := by
  unfold update
  rw [separate_perm sqrt b L L2 h, align_perm sqrt b L L2 h, cohesion_perm sqrt b L L2 h]

/-- C9, as stated, fails: `[sampleRight, sampleLeft]` is a permutation of
`[sampleLeft, sampleRight]`, yet one pass of the loop sends `sampleRight` to
`(146, 100)` flying left when it is visited first and to `(152, 100)` flying
right when it is visited second; the two results are not permutations of
each other. -/
theorem tick_order_counterexample :
    List.Perm [(sampleLeft : Boid ℝ), sampleRight] [sampleRight, sampleLeft] ∧
      tick Real.sqrt [(sampleLeft : Boid ℝ), sampleRight] = [sampleLeftNext, sampleFar] ∧
      tick Real.sqrt [(sampleRight : Boid ℝ), sampleLeft] =
        [sampleRightTurned, sampleLeftNext] ∧
      ¬ List.Perm (tick Real.sqrt [(sampleLeft : Boid ℝ), sampleRight])
        (tick Real.sqrt [(sampleRight : Boid ℝ), sampleLeft]) := by
  refine ⟨List.Perm.swap _ _ _, tick_sample, tick_sample_swapped, ?_⟩
  rw [tick_sample, tick_sample_swapped]
  intro h
  have hmem : (sampleFar : Boid ℝ) ∈ [(sampleRightTurned : Boid ℝ), sampleLeftNext] :=
    h.subset (by simp)
  simp only [List.mem_cons, List.mem_singleton, List.not_mem_nil, or_false] at hmem
  rcases hmem with h1 | h1
  · exact sampleFar_ne_sampleRightTurned h1
  · exact sampleFar_ne_sampleLeftNext h1

/-- The snapshot tick is insensitive to insertion order: for every collection
`L` and every permutation `L2` of it, `update` of any boid against `L2` equals
its `update` against `L`; hence a tick that computes every new state from the
pre-tick collection gives each boid of `L2` the state it gets in `L`, and its
result on `L2` is a permutation of its result on `L`. -/
theorem snapshot_order_irrelevant (sqrt : F → F) (L L2 : List (Boid F)) (h : L.Perm L2) :
    (∀ b : Boid F, update sqrt b L2 = update sqrt b L) ∧
      tickSnapshot sqrt L2 = L2.map (fun b => update sqrt b L) ∧
      (tickSnapshot sqrt L).Perm (tickSnapshot sqrt L2) := by
  have hu : ∀ b : Boid F, update sqrt b L2 = update sqrt b L := fun b =>
    (update_perm sqrt b L L2 h).symm
  have hmap : tickSnapshot sqrt L2 = L2.map (fun b => update sqrt b L) := by
    unfold tickSnapshot
    exact List.map_congr_left (fun b _ => hu b)
  refine ⟨hu, hmap, ?_⟩
  rw [hmap]
  exact h.map _

/-- An instance of `snapshot_order_irrelevant`: the two orders of `sampleLeft`
and `sampleRight`. -/
theorem snapshot_order_irrelevant_witness :
    List.Perm [(sampleLeft : Boid ℝ), sampleRight] [sampleRight, sampleLeft] ∧
      ((∀ b : Boid ℝ, update Real.sqrt b [sampleRight, sampleLeft] =
          update Real.sqrt b [sampleLeft, sampleRight]) ∧
        tickSnapshot Real.sqrt [(sampleRight : Boid ℝ), sampleLeft] =
          [(sampleRight : Boid ℝ), sampleLeft].map
            (fun b => update Real.sqrt b [sampleLeft, sampleRight]) ∧
        (tickSnapshot Real.sqrt [(sampleLeft : Boid ℝ), sampleRight]).Perm
          (tickSnapshot Real.sqrt [(sampleRight : Boid ℝ), sampleLeft])) :=
  ⟨List.Perm.swap _ _ _, snapshot_order_irrelevant Real.sqrt _ _ (List.Perm.swap _ _ _)⟩

end Order

/-! ## `normalize` of a non-zero vector (C11) and the formula of `update` (C12) -/

section Formula

open Vector2D Boid

/-- C11: for a vector `v` of magnitude `m > 0`, `normalize` returns a vector
of magnitude exactly 1, and that vector is `v` scaled by `1 / m`. -/
theorem normalize_unit (v : Vector2D ℝ) (h : 0 < magnitude Real.sqrt v) :
    magnitude Real.sqrt (Vector2D.normalize Real.sqrt v) = 1 ∧
      Vector2D.normalize Real.sqrt v = smul v (1 / magnitude Real.sqrt v) := by
  refine ⟨magnitude_normalize v h, ?_⟩
  rw [normalize_of_pos v h]
  ext <;> simp only [sdiv, smul] <;> ring

theorem magnitude_three_four : magnitude Real.sqrt (⟨3, 4⟩ : Vector2D ℝ) = 5 :=
  magnitude_eq_of_mul_self _ 5 (by norm_num) (by norm_num)

theorem magnitude_three_four_pos : 0 < magnitude Real.sqrt (⟨3, 4⟩ : Vector2D ℝ) := by
  rw [magnitude_three_four]; norm_num

/-- Witness for C11: the vector `(3, 4)` of magnitude 5. -/
theorem normalize_unit_witness :
    0 < magnitude Real.sqrt (⟨3, 4⟩ : Vector2D ℝ) ∧
      (magnitude Real.sqrt (Vector2D.normalize Real.sqrt (⟨3, 4⟩ : Vector2D ℝ)) = 1 ∧
        Vector2D.normalize Real.sqrt (⟨3, 4⟩ : Vector2D ℝ) =
          smul ⟨3, 4⟩ (1 / magnitude Real.sqrt (⟨3, 4⟩ : Vector2D ℝ))) :=
  ⟨magnitude_three_four_pos, normalize_unit _ magnitude_three_four_pos⟩

/-- C12: `update` sets the velocity to `MAX_SPEED` times the normalized sum
of the old velocity and the three forces, summed unweighted and all computed
from the boid as it was before the call, and sets the position to the wrap
of the old position plus that new velocity. -/
theorem update_formula (b : Boid ℝ) (L : List (Boid ℝ)) :
    (update Real.sqrt b L).velocity =
        smul (Vector2D.normalize Real.sqrt (add b.velocity
          (add (add (separate Real.sqrt b L) (align Real.sqrt b L)) (cohesion Real.sqrt b L))))
          MAX_SPEED ∧
      (update Real.sqrt b L).position =
        ⟨if (add b.position (update Real.sqrt b L).velocity).x < 0 then (WIDTH : ℝ)
           else if (add b.position (update Real.sqrt b L).velocity).x > (WIDTH : ℝ) then 0
           else (add b.position (update Real.sqrt b L).velocity).x,
         if (add b.position (update Real.sqrt b L).velocity).y < 0 then (HEIGHT : ℝ)
           else if (add b.position (update Real.sqrt b L).velocity).y > (HEIGHT : ℝ) then 0
           else (add b.position (update Real.sqrt b L).velocity).y⟩ := by
  refine ⟨?_, ?_⟩
  · rw [update_velocity, acceleration]
  · exact update_position b L

end Formula

/-! ## Which boids of the collection matter (C14, C15, C16) -/

section Scan

open Vector2D Boid

theorem foldl_skip_middle {α β : Type} (f : β → α → β) (o : α) (L1 L2 : List α) (init : β)
    (h : ∀ acc, f acc o = acc) :
    (L1 ++ o :: L2).foldl f init = (L1 ++ L2).foldl f init := by
  simp only [List.foldl_append, List.foldl_cons, h]

theorem separateStep_of_not (sqrt : F → F) (b o : Boid F) (h : ¬ inSeparation sqrt b o)
    (acc : Vector2D F × Nat) : separateStep sqrt b acc o = acc := by
  unfold inSeparation at h
  simp only [separateStep, if_neg h]

theorem alignStep_of_not (sqrt : F → F) (b o : Boid F) (h : ¬ inNeighborRadius sqrt b o)
    (acc : Vector2D F × Nat) : alignStep sqrt b acc o = acc := by
  unfold inNeighborRadius at h
  simp only [alignStep, if_neg h]

theorem cohesionStep_of_not (sqrt : F → F) (b o : Boid F) (h : ¬ inNeighborRadius sqrt b o)
    (acc : Vector2D F × Nat) : cohesionStep sqrt b acc o = acc := by
  unfold inNeighborRadius at h
  simp only [cohesionStep, if_neg h]

theorem separate_skip (sqrt : F → F) (b o : Boid F) (L1 L2 : List (Boid F))
    (h : ¬ inSeparation sqrt b o) :
    separate sqrt b (L1 ++ o :: L2) = separate sqrt b (L1 ++ L2) := by
  unfold separate
  rw [foldl_skip_middle _ o L1 L2 _ (separateStep_of_not sqrt b o h)]

theorem align_skip (sqrt : F → F) (b o : Boid F) (L1 L2 : List (Boid F))
    (h : ¬ inNeighborRadius sqrt b o) :
    align sqrt b (L1 ++ o :: L2) = align sqrt b (L1 ++ L2) := by
  unfold align
  rw [foldl_skip_middle _ o L1 L2 _ (alignStep_of_not sqrt b o h)]

theorem cohesion_skip (sqrt : F → F) (b o : Boid F) (L1 L2 : List (Boid F))
    (h : ¬ inNeighborRadius sqrt b o) :
    cohesion sqrt b (L1 ++ o :: L2) = cohesion sqrt b (L1 ++ L2) := by
  unfold cohesion
  rw [foldl_skip_middle _ o L1 L2 _ (cohesionStep_of_not sqrt b o h)]

theorem update_skip (sqrt : F → F) (b o : Boid F) (L1 L2 : List (Boid F))
    (h : ¬ inNeighborRadius sqrt b o) :
    update sqrt b (L1 ++ o :: L2) = update sqrt b (L1 ++ L2) := by
  unfold update
  rw [separate_skip sqrt b o L1 L2 (not_inSeparation_of_not_inNeighborRadius sqrt b o h),
    align_skip sqrt b o L1 L2 h, cohesion_skip sqrt b o L1 L2 h]

theorem not_inNeighborRadius_of_same_position (b o : Boid ℝ) (h : o.position = b.position) :
    ¬ inNeighborRadius Real.sqrt b o := by
  unfold inNeighborRadius
  rw [h, magnitude_sub_self]
  exact fun hc => lt_irrefl 0 hc.1

/-- C14: a boid located exactly at `b`'s position (distance 0), `b` itself
included, can be added to or removed from the collection anywhere without
changing what `separate`, `align`, `cohesion` and `update` return for `b`. -/
theorem self_exclusion (b o : Boid ℝ) (L1 L2 : List (Boid ℝ))
    (h : o.position = b.position) :
    separate Real.sqrt b (L1 ++ o :: L2) = separate Real.sqrt b (L1 ++ L2) ∧
      align Real.sqrt b (L1 ++ o :: L2) = align Real.sqrt b (L1 ++ L2) ∧
      cohesion Real.sqrt b (L1 ++ o :: L2) = cohesion Real.sqrt b (L1 ++ L2) ∧
      update Real.sqrt b (L1 ++ o :: L2) = update Real.sqrt b (L1 ++ L2) := by
  have hn := not_inNeighborRadius_of_same_position b o h
  exact ⟨separate_skip Real.sqrt b o L1 L2
      (not_inSeparation_of_not_inNeighborRadius Real.sqrt b o hn),
    align_skip Real.sqrt b o L1 L2 hn, cohesion_skip Real.sqrt b o L1 L2 hn,
    update_skip Real.sqrt b o L1 L2 hn⟩

/-- Witness for C14: `sampleLeft` itself, removed from `[sampleLeft, sampleRight]`. -/
theorem self_exclusion_witness :
    (sampleLeft : Boid ℝ).position = (sampleLeft : Boid ℝ).position ∧
      (separate Real.sqrt (sampleLeft : Boid ℝ) ([] ++ sampleLeft :: [sampleRight]) =
          separate Real.sqrt (sampleLeft : Boid ℝ) ([] ++ [sampleRight]) ∧
        align Real.sqrt (sampleLeft : Boid ℝ) ([] ++ sampleLeft :: [sampleRight]) =
          align Real.sqrt (sampleLeft : Boid ℝ) ([] ++ [sampleRight]) ∧
        cohesion Real.sqrt (sampleLeft : Boid ℝ) ([] ++ sampleLeft :: [sampleRight]) =
          cohesion Real.sqrt (sampleLeft : Boid ℝ) ([] ++ [sampleRight]) ∧
        update Real.sqrt (sampleLeft : Boid ℝ) ([] ++ sampleLeft :: [sampleRight]) =
          update Real.sqrt (sampleLeft : Boid ℝ) ([] ++ [sampleRight])) :=
  ⟨rfl, self_exclusion sampleLeft sampleLeft [] [sampleRight] rfl⟩

/-- C15: a boid `o1` at distance at least `NEIGHBOR_RADIUS` from `b` (exactly
50 included) can be removed from the collection without changing the result
of `b`'s `update`, and a boid `o2` at distance at least `DESIRED_SEPARATION`
(exactly 25 included) without changing the result of `separate`. -/
theorem locality (b o1 o2 : Boid ℝ) (L1 L2 : List (Boid ℝ))
    (h1 : NEIGHBOR_RADIUS ≤ magnitude Real.sqrt (sub b.position o1.position))
    (h2 : DESIRED_SEPARATION ≤ magnitude Real.sqrt (sub b.position o2.position)) :
    update Real.sqrt b (L1 ++ o1 :: L2) = update Real.sqrt b (L1 ++ L2) ∧
      separate Real.sqrt b (L1 ++ o2 :: L2) = separate Real.sqrt b (L1 ++ L2) :=
  ⟨update_skip Real.sqrt b o1 L1 L2 (fun hc => absurd hc.2 (not_lt.mpr h1)),
    separate_skip Real.sqrt b o2 L1 L2 (fun hc => absurd hc.2 (not_lt.mpr h2))⟩

theorem sampleAtRadius_distance :
    NEIGHBOR_RADIUS ≤ magnitude Real.sqrt
      (sub (sampleLeft : Boid ℝ).position (sampleAtRadius : Boid ℝ).position) := by
  have hd : magnitude Real.sqrt
      (sub (sampleLeft : Boid ℝ).position (sampleAtRadius : Boid ℝ).position) = 50 := by
    simp only [sampleLeft, sampleAtRadius, sub]
    norm_num [magnitude_axis_x]
  rw [hd]
  norm_num [NEIGHBOR_RADIUS]

theorem sampleAtSeparation_distance :
    DESIRED_SEPARATION ≤ magnitude Real.sqrt
      (sub (sampleLeft : Boid ℝ).position (sampleAtSeparation : Boid ℝ).position) := by
  have hd : magnitude Real.sqrt
      (sub (sampleLeft : Boid ℝ).position (sampleAtSeparation : Boid ℝ).position) = 25 := by
    simp only [sampleLeft, sampleAtSeparation, sub]
    norm_num [magnitude_axis_x]
  rw [hd]
  norm_num [DESIRED_SEPARATION]

/-- Witness for C15: boids exactly 50 and exactly 25 units from `sampleLeft`. -/
theorem locality_witness :
    (NEIGHBOR_RADIUS ≤ magnitude Real.sqrt
        (sub (sampleLeft : Boid ℝ).position (sampleAtRadius : Boid ℝ).position) ∧
      DESIRED_SEPARATION ≤ magnitude Real.sqrt
        (sub (sampleLeft : Boid ℝ).position (sampleAtSeparation : Boid ℝ).position)) ∧
      (update Real.sqrt (sampleLeft : Boid ℝ) ([sampleLeft] ++ sampleAtRadius :: [sampleRight]) =
          update Real.sqrt (sampleLeft : Boid ℝ) ([sampleLeft] ++ [sampleRight]) ∧
        separate Real.sqrt (sampleLeft : Boid ℝ)
            ([sampleLeft] ++ sampleAtSeparation :: [sampleRight]) =
          separate Real.sqrt (sampleLeft : Boid ℝ) ([sampleLeft] ++ [sampleRight])) :=
  ⟨⟨sampleAtRadius_distance, sampleAtSeparation_distance⟩,
    locality sampleLeft sampleAtRadius sampleAtSeparation [sampleLeft] [sampleRight]
      sampleAtRadius_distance sampleAtSeparation_distance⟩

/-- C16: the scan does not depend on the order of the collection: for two
collections that are permutations of each other, `separate`, `align` and
`cohesion` return the same vectors, and `update` the same boid. -/
theorem scan_order_independent (b : Boid ℝ) (L L2 : List (Boid ℝ)) (h : L.Perm L2) :
    separate Real.sqrt b L = separate Real.sqrt b L2 ∧
      align Real.sqrt b L = align Real.sqrt b L2 ∧
      cohesion Real.sqrt b L = cohesion Real.sqrt b L2 ∧
      update Real.sqrt b L = update Real.sqrt b L2 :=
  ⟨separate_perm Real.sqrt b L L2 h, align_perm Real.sqrt b L L2 h,
    cohesion_perm Real.sqrt b L L2 h, update_perm Real.sqrt b L L2 h⟩

/-- Witness for C16: the two orders of `sampleLeft` and `sampleRight`. -/
theorem scan_order_independent_witness :
    List.Perm [(sampleLeft : Boid ℝ), sampleRight] [sampleRight, sampleLeft] ∧
      (separate Real.sqrt (sampleLeft : Boid ℝ) [sampleLeft, sampleRight] =
          separate Real.sqrt (sampleLeft : Boid ℝ) [sampleRight, sampleLeft] ∧
        align Real.sqrt (sampleLeft : Boid ℝ) [sampleLeft, sampleRight] =
          align Real.sqrt (sampleLeft : Boid ℝ) [sampleRight, sampleLeft] ∧
        cohesion Real.sqrt (sampleLeft : Boid ℝ) [sampleLeft, sampleRight] =
          cohesion Real.sqrt (sampleLeft : Boid ℝ) [sampleRight, sampleLeft] ∧
        update Real.sqrt (sampleLeft : Boid ℝ) [sampleLeft, sampleRight] =
          update Real.sqrt (sampleLeft : Boid ℝ) [sampleRight, sampleLeft]) :=
  ⟨List.Perm.swap _ _ _, scan_order_independent sampleLeft _ _ (List.Perm.swap _ _ _)⟩

end Scan

/-! ## Cohesion and alignment in terms of the qualifying boids (C13, C19) -/

section Centroid

open Vector2D Boid

theorem add_assoc_vec (a b c : Vector2D F) : add (add a b) c = add a (add b c) := by
  ext <;> simp only [add] <;> ring

theorem add_zero_vec (a : Vector2D F) : add a Vector2D.zero = a := by
  ext <;> simp [add, Vector2D.zero]

theorem neighbors_cons_of_pos (sqrt : F → F) (b o : Boid F) (L : List (Boid F))
    (h : inNeighborRadius sqrt b o) : neighbors sqrt b (o :: L) = o :: neighbors sqrt b L := by
  unfold inNeighborRadius at h
  simp [neighbors, List.filter_cons, h]

theorem neighbors_cons_of_neg (sqrt : F → F) (b o : Boid F) (L : List (Boid F))
    (h : ¬ inNeighborRadius sqrt b o) : neighbors sqrt b (o :: L) = neighbors sqrt b L := by
  unfold inNeighborRadius at h
  simp [neighbors, List.filter_cons, h]

theorem mem_neighbors (sqrt : F → F) (b o : Boid F) (L : List (Boid F)) :
    o ∈ neighbors sqrt b L ↔ o ∈ L ∧ inNeighborRadius sqrt b o := by
  simp [neighbors, inNeighborRadius]

theorem foldl_cohesionStep_eq (sqrt : F → F) (b : Boid F) (L : List (Boid F))
    (acc : Vector2D F × Nat) :
    L.foldl (cohesionStep sqrt b) acc =
      (add acc.1 (vecSum ((neighbors sqrt b L).map (fun o => o.position))),
        acc.2 + (neighbors sqrt b L).length) := by
  induction L generalizing acc with
  | nil => simp [neighbors, vecSum, add_zero_vec]
  | cons o rest ih =>
    rw [List.foldl_cons, ih]
    by_cases h : inNeighborRadius sqrt b o
    · have hstep : cohesionStep sqrt b acc o = (add acc.1 o.position, acc.2 + 1) := by
        unfold inNeighborRadius at h
        simp only [cohesionStep, if_pos h]
      rw [hstep, neighbors_cons_of_pos sqrt b o rest h]
      simp only [List.map_cons, vecSum, List.length_cons, add_assoc_vec]
      congr 1
      omega
    · rw [cohesionStep_of_not sqrt b o h, neighbors_cons_of_neg sqrt b o rest h]

theorem foldl_alignStep_eq (sqrt : F → F) (b : Boid F) (L : List (Boid F))
    (acc : Vector2D F × Nat) :
    L.foldl (alignStep sqrt b) acc =
      (add acc.1 (vecSum ((neighbors sqrt b L).map (fun o => o.velocity))),
        acc.2 + (neighbors sqrt b L).length) := by
  induction L generalizing acc with
  | nil => simp [neighbors, vecSum, add_zero_vec]
  | cons o rest ih =>
    rw [List.foldl_cons, ih]
    by_cases h : inNeighborRadius sqrt b o
    · have hstep : alignStep sqrt b acc o = (add acc.1 o.velocity, acc.2 + 1) := by
        unfold inNeighborRadius at h
        simp only [alignStep, if_pos h]
      rw [hstep, neighbors_cons_of_pos sqrt b o rest h]
      simp only [List.map_cons, vecSum, List.length_cons, add_assoc_vec]
      congr 1
      omega
    · rw [alignStep_of_not sqrt b o h, neighbors_cons_of_neg sqrt b o rest h]

theorem neighbors_length_pos (sqrt : F → F) (b : Boid F) (L : List (Boid F))
    (h : ∃ o ∈ L, inNeighborRadius sqrt b o) : 0 < (neighbors sqrt b L).length := by
  obtain ⟨o, ho, hq⟩ := h
  exact List.length_pos_of_mem ((mem_neighbors sqrt b o L).mpr ⟨ho, hq⟩)

theorem cohesion_eq_seek (sqrt : F → F) (b : Boid F) (L : List (Boid F))
    (h : ∃ o ∈ L, inNeighborRadius sqrt b o) :
    cohesion sqrt b L = seek sqrt b (centroid sqrt b L) := by
  have hpos := neighbors_length_pos sqrt b L h
  unfold cohesion centroid
  simp only [foldl_cohesionStep_eq, zero_add_vec, zero_add, gt_iff_lt, hpos, if_true]

theorem clampForce_of_gt (s : Vector2D ℝ) (h : magnitude Real.sqrt s > MAX_FORCE) :
    clampForce Real.sqrt s = smul s (MAX_FORCE / magnitude Real.sqrt s) ∧
      magnitude Real.sqrt (clampForce Real.sqrt s) = MAX_FORCE := by
  have hpos : 0 < magnitude Real.sqrt s := lt_trans (by simp [MAX_FORCE]) h
  have hm : magnitude Real.sqrt s ≠ 0 := ne_of_gt hpos
  have hc : clampForce Real.sqrt s = smul (Vector2D.normalize Real.sqrt s) MAX_FORCE := by
    simp only [clampForce, if_pos h]
  refine ⟨?_, ?_⟩
  · rw [hc, normalize_of_pos _ hpos]
    ext <;> simp only [smul, sdiv] <;> field_simp
  · rw [hc, magnitude_smul _ _ (by simp [MAX_FORCE]), magnitude_normalize _ hpos, one_mul]

theorem clampForce_of_not_gt (sqrt : F → F) (s : Vector2D F)
    (h : ¬ magnitude sqrt s > MAX_FORCE) : clampForce sqrt s = s := by
  simp only [clampForce, if_neg h]

/-- C13: when at least one boid of the collection lies at a distance `d`
from `b` with `0 < d < NEIGHBOR_RADIUS`, `cohesion` returns `seek` of the
arithmetic mean `c` of the positions of exactly those boids, which is the
clamp of `MAX_SPEED * normalize(c - b.position) - b.velocity`; the clamp
rescales to magnitude `MAX_FORCE` a vector whose magnitude exceeds
`MAX_FORCE` and is the identity otherwise. -/
theorem cohesion_seeks_centroid (b : Boid ℝ) (L : List (Boid ℝ))
    (h : ∃ o ∈ L, inNeighborRadius Real.sqrt b o) :
    cohesion Real.sqrt b L = seek Real.sqrt b (centroid Real.sqrt b L) ∧
      cohesion Real.sqrt b L =
        clampForce Real.sqrt
          (sub (smul (Vector2D.normalize Real.sqrt (sub (centroid Real.sqrt b L) b.position))
            MAX_SPEED) b.velocity) ∧
      (∀ s : Vector2D ℝ, magnitude Real.sqrt s > MAX_FORCE →
        clampForce Real.sqrt s = smul s (MAX_FORCE / magnitude Real.sqrt s) ∧
          magnitude Real.sqrt (clampForce Real.sqrt s) = MAX_FORCE) ∧
      (∀ s : Vector2D ℝ, ¬ magnitude Real.sqrt s > MAX_FORCE → clampForce Real.sqrt s = s) := by
  refine ⟨cohesion_eq_seek Real.sqrt b L h, ?_, clampForce_of_gt,
    clampForce_of_not_gt Real.sqrt⟩
  rw [cohesion_eq_seek Real.sqrt b L h, seek]

theorem sampleRight_inNeighborRadius :
    inNeighborRadius Real.sqrt (sampleLeft : Boid ℝ) sampleRight := by
  have hd : magnitude Real.sqrt
      (sub (sampleLeft : Boid ℝ).position (sampleRight : Boid ℝ).position) = 49 := by
    simp only [sampleLeft, sampleRight, sub]
    norm_num [magnitude_axis_x]
  unfold inNeighborRadius
  rw [hd]
  norm_num [NEIGHBOR_RADIUS]

theorem sampleLeft_has_neighbour :
    ∃ o ∈ [(sampleLeft : Boid ℝ), sampleRight], inNeighborRadius Real.sqrt sampleLeft o :=
  ⟨sampleRight, by simp, sampleRight_inNeighborRadius⟩

/-- Witness for C13: `sampleLeft` with `sampleRight` 49 units away. -/
theorem cohesion_seeks_centroid_witness :
    (∃ o ∈ [(sampleLeft : Boid ℝ), sampleRight], inNeighborRadius Real.sqrt sampleLeft o) ∧
      (cohesion Real.sqrt (sampleLeft : Boid ℝ) [sampleLeft, sampleRight] =
          seek Real.sqrt sampleLeft
            (centroid Real.sqrt (sampleLeft : Boid ℝ) [sampleLeft, sampleRight]) ∧
        cohesion Real.sqrt (sampleLeft : Boid ℝ) [sampleLeft, sampleRight] =
          clampForce Real.sqrt
            (sub (smul (Vector2D.normalize Real.sqrt
              (sub (centroid Real.sqrt (sampleLeft : Boid ℝ) [sampleLeft, sampleRight])
                (sampleLeft : Boid ℝ).position)) MAX_SPEED) (sampleLeft : Boid ℝ).velocity) ∧
        (∀ s : Vector2D ℝ, magnitude Real.sqrt s > MAX_FORCE →
          clampForce Real.sqrt s = smul s (MAX_FORCE / magnitude Real.sqrt s) ∧
            magnitude Real.sqrt (clampForce Real.sqrt s) = MAX_FORCE) ∧
        (∀ s : Vector2D ℝ, ¬ magnitude Real.sqrt s > MAX_FORCE →
          clampForce Real.sqrt s = s)) :=
  ⟨sampleLeft_has_neighbour, cohesion_seeks_centroid _ _ sampleLeft_has_neighbour⟩

theorem vecSum_const (v : Vector2D F) (l : List (Boid F)) (h : ∀ o ∈ l, o.velocity = v) :
    vecSum (l.map (fun o => o.velocity)) = smul v (l.length : F) := by
  induction l with
  | nil => ext <;> simp [vecSum, smul, Vector2D.zero]
  | cons o rest ih =>
    rw [List.map_cons, vecSum, ih (fun x hx => h x (List.mem_cons_of_mem _ hx)),
      h o (List.mem_cons_self _ _)]
    ext <;> simp only [add, smul, List.length_cons, Nat.cast_succ] <;> ring

/-- C19, amended: in exact real arithmetic, when `b` flies at `MAX_SPEED`, at
least one boid of the collection qualifies (`0 < d < NEIGHBOR_RADIUS`) and
every qualifying boid has `b`'s velocity, `align` returns the zero vector. -/
theorem align_fixed_point (b : Boid ℝ) (L : List (Boid ℝ))
    (hv : magnitude Real.sqrt b.velocity = MAX_SPEED)
    (hq : ∃ o ∈ L, inNeighborRadius Real.sqrt b o)
    (hall : ∀ o ∈ L, inNeighborRadius Real.sqrt b o → o.velocity = b.velocity) :
    align Real.sqrt b L = Vector2D.zero := by
  have hpos := neighbors_length_pos Real.sqrt b L hq
  have hn0 : (((neighbors Real.sqrt b L).length : Nat) : ℝ) ≠ 0 :=
    count_cast_ne_zero _ hpos
  have hsum := vecSum_const b.velocity (neighbors Real.sqrt b L)
    (fun o ho => hall o ((mem_neighbors Real.sqrt b o L).mp ho).1
      ((mem_neighbors Real.sqrt b o L).mp ho).2)
  have hmean : sdiv (smul b.velocity (((neighbors Real.sqrt b L).length : Nat) : ℝ))
      (((neighbors Real.sqrt b L).length : Nat) : ℝ) = b.velocity := by
    ext <;> simp only [sdiv, smul] <;> field_simp
  have hvpos : 0 < magnitude Real.sqrt b.velocity := by
    rw [hv]; simp [MAX_SPEED]
  have hdes : smul (Vector2D.normalize Real.sqrt b.velocity) MAX_SPEED = b.velocity := by
    rw [normalize_of_pos _ hvpos, hv]
    ext <;> simp [sdiv, smul, MAX_SPEED]
  have hzero : sub b.velocity b.velocity = Vector2D.zero := by
    ext <;> simp [sub, Vector2D.zero]
  unfold align
  simp only [foldl_alignStep_eq, zero_add_vec, zero_add, gt_iff_lt, hpos, if_true, hsum, hmean,
    hdes, hzero]
  rw [clampForce_of_not_gt]
  rw [magnitude_zero]
  simp [MAX_FORCE]

theorem sampleUpA_speed : magnitude Real.sqrt (sampleUpA : Boid ℝ).velocity = MAX_SPEED :=
  magnitude_eq_of_mul_self _ _ (by simp [MAX_SPEED]) (by norm_num [sampleUpA, MAX_SPEED])

theorem sampleUpA_has_neighbour :
    ∃ o ∈ [(sampleUpA : Boid ℝ), sampleUpB], inNeighborRadius Real.sqrt sampleUpA o := by
  refine ⟨sampleUpB, by simp, ?_⟩
  unfold inNeighborRadius
  rw [sampleUp_distance]
  norm_num [NEIGHBOR_RADIUS]

theorem sampleUp_aligned (o : Boid ℝ) (ho : o ∈ [(sampleUpA : Boid ℝ), sampleUpB])
    (_ : inNeighborRadius Real.sqrt (sampleUpA : Boid ℝ) o) :
    o.velocity = (sampleUpA : Boid ℝ).velocity := by
  simp only [List.mem_cons, List.mem_singleton, List.not_mem_nil, or_false] at ho
  rcases ho with rfl | rfl <;> rfl

/-- Witness for C19 (amended): two boids 10 units apart with the same full-speed velocity. -/
theorem align_fixed_point_witness :
    (magnitude Real.sqrt (sampleUpA : Boid ℝ).velocity = MAX_SPEED ∧
      (∃ o ∈ [(sampleUpA : Boid ℝ), sampleUpB], inNeighborRadius Real.sqrt sampleUpA o) ∧
      (∀ o ∈ [(sampleUpA : Boid ℝ), sampleUpB], inNeighborRadius Real.sqrt sampleUpA o →
        o.velocity = (sampleUpA : Boid ℝ).velocity)) ∧
      align Real.sqrt (sampleUpA : Boid ℝ) [sampleUpA, sampleUpB] = Vector2D.zero :=
  ⟨⟨sampleUpA_speed, sampleUpA_has_neighbour, sampleUp_aligned⟩,
    align_fixed_point _ _ sampleUpA_speed sampleUpA_has_neighbour sampleUp_aligned⟩

end Centroid

/-! ## Separation from a single neighbour (C18) -/

section Single

open Vector2D Boid

theorem foldl_separateStep_single (b o : Boid ℝ) (L1 L2 : List (Boid ℝ))
    (ho : inSeparation Real.sqrt b o) (h1 : ∀ x ∈ L1, ¬ inSeparation Real.sqrt b x)
    (h2 : ∀ x ∈ L2, ¬ inSeparation Real.sqrt b x) :
    (L1 ++ o :: L2).foldl (separateStep Real.sqrt b) (Vector2D.zero, 0) =
      (add Vector2D.zero (sdiv (Vector2D.normalize Real.sqrt (sub b.position o.position))
        (magnitude Real.sqrt (sub b.position o.position))), 0 + 1) := by
  rw [List.foldl_append, foldl_separateStep_skip Real.sqrt b L1 h1, List.foldl_cons,
    separateStep_of_inSeparation b o _ ho, foldl_separateStep_skip Real.sqrt b L2 h2]

theorem separate_single (b o : Boid ℝ) (L1 L2 : List (Boid ℝ))
    (ho : inSeparation Real.sqrt b o) (h1 : ∀ x ∈ L1, ¬ inSeparation Real.sqrt b x)
    (h2 : ∀ x ∈ L2, ¬ inSeparation Real.sqrt b x) :
    separate Real.sqrt b (L1 ++ o :: L2) =
      clampForce Real.sqrt
        (sub (smul (Vector2D.normalize Real.sqrt (sub b.position o.position)) MAX_SPEED)
          b.velocity) :=
  separate_of_fold_single b _ o.position ho.1 (foldl_separateStep_single b o L1 L2 ho h1 h2)

theorem normalize_smul_pos (w : Vector2D ℝ) (t : ℝ) (ht : 0 < t) :
    Vector2D.normalize Real.sqrt (smul w t) = Vector2D.normalize Real.sqrt w := by
  have h : smul w t = sdiv w (1 / t) := by
    ext <;> simp [smul, sdiv]
  rw [h, normalize_sdiv w (1 / t) (one_div_pos.mpr ht)]

/-- C18, amended: in exact real arithmetic, when exactly one boid `o` of the
collection qualifies for `separate` (`0 < d < DESIRED_SEPARATION`), the force
is the clamp of
`MAX_SPEED * normalize(position - o.position) - velocity` and does not
depend on `d`: replacing `o` by any qualifying boid on the same ray from `b`
(at `t` times the offset, `t > 0`) leaves the force unchanged. -/
theorem separate_single_neighbour (b o : Boid ℝ) (L1 L2 : List (Boid ℝ))
    (ho : inSeparation Real.sqrt b o) (h1 : ∀ x ∈ L1, ¬ inSeparation Real.sqrt b x)
    (h2 : ∀ x ∈ L2, ¬ inSeparation Real.sqrt b x) :
    separate Real.sqrt b (L1 ++ o :: L2) =
        clampForce Real.sqrt
          (sub (smul (Vector2D.normalize Real.sqrt (sub b.position o.position)) MAX_SPEED)
            b.velocity) ∧
      ∀ (o2 : Boid ℝ) (t : ℝ), 0 < t →
        sub b.position o2.position = smul (sub b.position o.position) t →
        inSeparation Real.sqrt b o2 →
        separate Real.sqrt b (L1 ++ o2 :: L2) = separate Real.sqrt b (L1 ++ o :: L2) := by
  refine ⟨separate_single b o L1 L2 ho h1 h2, ?_⟩
  intro o2 t ht hray ho2
  rw [separate_single b o L1 L2 ho h1 h2, separate_single b o2 L1 L2 ho2 h1 h2, hray,
    normalize_smul_pos _ t ht]

theorem sampleUpA_not_inSeparation_self (x : Boid ℝ) (hx : x ∈ [(sampleUpA : Boid ℝ)]) :
    ¬ inSeparation Real.sqrt (sampleUpA : Boid ℝ) x := by
  rw [List.mem_singleton] at hx
  subst hx
  simp [inSeparation, magnitude_sub_self]

theorem nothing_in_nil (x : Boid ℝ) (hx : x ∈ ([] : List (Boid ℝ))) :
    ¬ inSeparation Real.sqrt (sampleUpA : Boid ℝ) x :=
  absurd hx (List.not_mem_nil x)

/-- Witness for C18 (amended): `sampleUpA` with itself and `sampleUpB`, 10 units away. -/
theorem separate_single_neighbour_witness :
    (inSeparation Real.sqrt (sampleUpA : Boid ℝ) sampleUpB ∧
      (∀ x ∈ [(sampleUpA : Boid ℝ)], ¬ inSeparation Real.sqrt (sampleUpA : Boid ℝ) x) ∧
      (∀ x ∈ ([] : List (Boid ℝ)), ¬ inSeparation Real.sqrt (sampleUpA : Boid ℝ) x)) ∧
      (separate Real.sqrt (sampleUpA : Boid ℝ) ([sampleUpA] ++ sampleUpB :: []) =
          clampForce Real.sqrt
            (sub (smul (Vector2D.normalize Real.sqrt
              (sub (sampleUpA : Boid ℝ).position (sampleUpB : Boid ℝ).position)) MAX_SPEED)
              (sampleUpA : Boid ℝ).velocity) ∧
        ∀ (o2 : Boid ℝ) (t : ℝ), 0 < t →
          sub (sampleUpA : Boid ℝ).position o2.position =
            smul (sub (sampleUpA : Boid ℝ).position (sampleUpB : Boid ℝ).position) t →
          inSeparation Real.sqrt (sampleUpA : Boid ℝ) o2 →
          separate Real.sqrt (sampleUpA : Boid ℝ) ([sampleUpA] ++ o2 :: []) =
            separate Real.sqrt (sampleUpA : Boid ℝ) ([sampleUpA] ++ sampleUpB :: [])) :=
  ⟨⟨sampleUp_inSeparation, sampleUpA_not_inSeparation_self, nothing_in_nil⟩,
    separate_single_neighbour sampleUpA sampleUpB [sampleUpA] [] sampleUp_inSeparation
      sampleUpA_not_inSeparation_self nothing_in_nil⟩

end Single

/-! ## Speed of the boids the program can reach (C17) -/

section Reachable

open Vector2D Boid

theorem magnitude_add_pos (v a : Vector2D ℝ)
    (h : magnitude Real.sqrt a < magnitude Real.sqrt v) :
    0 < magnitude Real.sqrt (add v a) := by
  apply magnitude_pos_of_ne_zero
  intro hz
  have hx : v.x + a.x = 0 := congrArg Vector2D.x hz
  have hy : v.y + a.y = 0 := congrArg Vector2D.y hz
  have heq : magnitude Real.sqrt v = magnitude Real.sqrt a := by
    unfold magnitude
    congr 1
    have h1 : v.x = -a.x := by linarith
    have h2 : v.y = -a.y := by linarith
    rw [h1, h2]
    ring
  rw [heq] at h
  exact lt_irrefl _ h

theorem update_input_ne_zero (b : Boid ℝ) (C : List (Boid ℝ))
    (h : 3 * MAX_FORCE < magnitude Real.sqrt b.velocity) :
    0 < magnitude Real.sqrt (add b.velocity (acceleration Real.sqrt b C)) :=
  magnitude_add_pos _ _ (lt_of_le_of_lt (magnitude_acceleration_le b C) h)

theorem update_speed_of_fast (b : Boid ℝ) (C : List (Boid ℝ))
    (h : 3 * MAX_FORCE < magnitude Real.sqrt b.velocity) :
    magnitude Real.sqrt (update Real.sqrt b C).velocity = MAX_SPEED := by
  rw [update_velocity, magnitude_smul _ _ (by simp [MAX_SPEED]),
    magnitude_normalize _ (update_input_ne_zero b C h), one_mul]

theorem construct_component (r : Nat) :
    (1 : ℝ) / 4 ≤ (((r % 3 : Nat) : ℝ) - 3 / 2) * (((r % 3 : Nat) : ℝ) - 3 / 2) := by
  have h : r % 3 < 3 := Nat.mod_lt _ (by norm_num)
  generalize r % 3 = k at h
  interval_cases k <;> norm_num

theorem construct_speed (x y : ℝ) (r1 r2 : Nat) :
    3 * MAX_FORCE < magnitude Real.sqrt (construct x y r1 r2).velocity := by
  have h1 := construct_component r1
  have h2 := construct_component r2
  have hm := magnitude_mul_self (construct x y r1 r2).velocity
  have h0 := magnitude_nonneg (construct x y r1 r2).velocity
  simp only [construct] at hm h0 ⊢
  simp only [MAX_FORCE]
  by_contra hle
  push_neg at hle
  nlinarith

theorem MAX_SPEED_fast : (3 : ℝ) * MAX_FORCE < MAX_SPEED := by
  norm_num [MAX_FORCE, MAX_SPEED]

theorem mem_tickLoop (sqrt : F → F) (rest done : List (Boid F)) (b2 : Boid F)
    (h : b2 ∈ tickLoop sqrt done rest) :
    b2 ∈ done ∨ ∃ b ∈ rest, ∃ C : List (Boid F), b2 = update sqrt b C := by
  induction rest generalizing done with
  | nil => exact Or.inl (by simpa [tickLoop] using h)
  | cons a rest ih =>
    rw [tickLoop] at h
    rcases ih _ h with h1 | ⟨b, hb, C, hC⟩
    · rw [List.mem_append, List.mem_singleton] at h1
      rcases h1 with h1 | h1
      · exact Or.inl h1
      · exact Or.inr ⟨a, List.mem_cons_self _ _, _, h1⟩
    · exact Or.inr ⟨b, List.mem_cons_of_mem _ hb, C, hC⟩

theorem mem_tick (sqrt : F → F) (L : List (Boid F)) (b2 : Boid F) (h : b2 ∈ tick sqrt L) :
    ∃ b ∈ L, ∃ C : List (Boid F), b2 = update sqrt b C := by
  rcases mem_tickLoop sqrt L [] b2 h with h1 | h1
  · exact absurd h1 (List.not_mem_nil _)
  · exact h1

theorem tick_speed (L : List (Boid ℝ))
    (h : ∀ b ∈ L, 3 * MAX_FORCE < magnitude Real.sqrt b.velocity) :
    ∀ b ∈ tick Real.sqrt L, magnitude Real.sqrt b.velocity = MAX_SPEED := by
  intro b2 hb2
  obtain ⟨b, hb, C, hC⟩ := mem_tick Real.sqrt L b2 hb2
  rw [hC]
  exact update_speed_of_fast b C (h b hb)

theorem runTicks_fast (n : Nat) (L : List (Boid ℝ))
    (h : ∀ b ∈ L, 3 * MAX_FORCE < magnitude Real.sqrt b.velocity) :
    ∀ b ∈ runTicks Real.sqrt n L, 3 * MAX_FORCE < magnitude Real.sqrt b.velocity := by
  induction n generalizing L with
  | zero => simpa [runTicks] using h
  | succ n ih =>
    rw [runTicks]
    apply ih
    intro b hb
    rw [tick_speed L h b hb]
    exact MAX_SPEED_fast

theorem runTicks_speed (n : Nat) (L : List (Boid ℝ))
    (h : ∀ b ∈ L, magnitude Real.sqrt b.velocity = MAX_SPEED) :
    ∀ b ∈ runTicks Real.sqrt n L, magnitude Real.sqrt b.velocity = MAX_SPEED := by
  induction n generalizing L with
  | zero => simpa [runTicks] using h
  | succ n ih =>
    rw [runTicks]
    apply ih
    apply tick_speed
    intro b hb
    rw [h b hb]
    exact MAX_SPEED_fast

theorem ne_zero_of_speed (v : Vector2D ℝ) (h : magnitude Real.sqrt v = MAX_SPEED) :
    v ≠ Vector2D.zero := by
  intro hz
  rw [hz, magnitude_zero] at h
  norm_num [MAX_SPEED] at h

theorem tick_length (sqrt : F → F) (L : List (Boid F)) : (tick sqrt L).length = L.length := by
  obtain ⟨tail, hlen, htail⟩ := tickLoop_eq_append sqrt L []
  rw [tick, htail, List.nil_append, hlen]

theorem runTicks_length (sqrt : F → F) (n : Nat) (L : List (Boid F)) :
    (runTicks sqrt n L).length = L.length := by
  induction n generalizing L with
  | zero => rfl
  | succ n ih => rw [runTicks, ih, tick_length]

/-- C17, amended: in exact real arithmetic, in a collection whose boids all
come out of the constructor (velocity components `r % 3 - 1.5`), after any
number `n ≥ 1` of ticks the collection still holds as many boids as at the
start and every boid's velocity is non-zero with magnitude exactly
`MAX_SPEED`; and at every stage (after any number `m` of ticks) each boid's
speed exceeds the bound `3 * MAX_FORCE` on the summed acceleration, so that
in its next `update`, against any collection, `normalize` receives a
non-zero vector. -/
theorem reachable_speed (L : List (Boid ℝ)) (n : Nat) (hn : 1 ≤ n)
    (hinit : ∀ b ∈ L, ∃ (x y : ℝ) (r1 r2 : Nat), b = construct x y r1 r2) :
    (runTicks Real.sqrt n L).length = L.length ∧
      (∀ b ∈ runTicks Real.sqrt n L,
        b.velocity ≠ Vector2D.zero ∧ magnitude Real.sqrt b.velocity = MAX_SPEED) ∧
      ∀ (m : Nat), (runTicks Real.sqrt m L).length = L.length ∧
        ∀ b ∈ runTicks Real.sqrt m L, ∀ C : List (Boid ℝ),
          magnitude Real.sqrt (acceleration Real.sqrt b C) ≤ 3 * MAX_FORCE ∧
            3 * MAX_FORCE < magnitude Real.sqrt b.velocity ∧
            0 < magnitude Real.sqrt (add b.velocity (acceleration Real.sqrt b C)) := by
  have hfast : ∀ b ∈ L, 3 * MAX_FORCE < magnitude Real.sqrt b.velocity := by
    intro b hb
    obtain ⟨x, y, r1, r2, rfl⟩ := hinit b hb
    exact construct_speed x y r1 r2
  refine ⟨runTicks_length Real.sqrt n L, ?_, ?_⟩
  · obtain ⟨k, rfl⟩ : ∃ k, n = k + 1 := ⟨n - 1, by omega⟩
    intro b hb
    rw [runTicks] at hb
    have hs := runTicks_speed k (tick Real.sqrt L) (tick_speed L hfast) b hb
    exact ⟨ne_zero_of_speed _ hs, hs⟩
  · intro m
    refine ⟨runTicks_length Real.sqrt m L, ?_⟩
    intro b hb C
    have hf := runTicks_fast m L hfast b hb
    exact ⟨magnitude_acceleration_le b C, hf, update_input_ne_zero b C hf⟩

theorem constructed_pair (b : Boid ℝ)
    (hb : b ∈ [(construct 100 100 0 1 : Boid ℝ), construct 149 100 2 2]) :
    ∃ (x y : ℝ) (r1 r2 : Nat), b = construct x y r1 r2 := by
  simp only [List.mem_cons, List.mem_singleton, List.not_mem_nil, or_false] at hb
  rcases hb with rfl | rfl
  · exact ⟨100, 100, 0, 1, rfl⟩
  · exact ⟨149, 100, 2, 2, rfl⟩

/-- Witness for C17 (amended): two constructed boids 49 units apart, two ticks. -/
theorem reachable_speed_witness :
    (1 ≤ 2 ∧ ∀ b ∈ [(construct 100 100 0 1 : Boid ℝ), construct 149 100 2 2],
        ∃ (x y : ℝ) (r1 r2 : Nat), b = construct x y r1 r2) ∧
      ((runTicks Real.sqrt 2 [(construct 100 100 0 1 : Boid ℝ), construct 149 100 2 2]).length
          = [(construct 100 100 0 1 : Boid ℝ), construct 149 100 2 2].length ∧
        (∀ b ∈ runTicks Real.sqrt 2 [(construct 100 100 0 1 : Boid ℝ), construct 149 100 2 2],
          b.velocity ≠ Vector2D.zero ∧ magnitude Real.sqrt b.velocity = MAX_SPEED) ∧
        ∀ (m : Nat),
          (runTicks Real.sqrt m
              [(construct 100 100 0 1 : Boid ℝ), construct 149 100 2 2]).length
            = [(construct 100 100 0 1 : Boid ℝ), construct 149 100 2 2].length ∧
          ∀ b ∈ runTicks Real.sqrt m [(construct 100 100 0 1 : Boid ℝ), construct 149 100 2 2],
          ∀ C : List (Boid ℝ),
            magnitude Real.sqrt (acceleration Real.sqrt b C) ≤ 3 * MAX_FORCE ∧
              3 * MAX_FORCE < magnitude Real.sqrt b.velocity ∧
              0 < magnitude Real.sqrt (add b.velocity (acceleration Real.sqrt b C))) :=
  ⟨⟨by decide, constructed_pair⟩, reachable_speed _ 2 (by decide) constructed_pair⟩

end Reachable

/-! ## The code in binary32 (C7, C17, C18, C19 as stated) -/

section Binary32

open Vector2D Boid

theorem magnitudeR_id (sqrt : F → F) (v : Vector2D F) :
    magnitudeR id sqrt v = magnitude sqrt v := rfl

theorem addR_id (a b : Vector2D F) : addR id a b = add a b := rfl

theorem subR_id (a b : Vector2D F) : subR id a b = sub a b := rfl

theorem smulR_id (a : Vector2D F) (c : F) : smulR id a c = smul a c := rfl

theorem sdivR_id (a : Vector2D F) (c : F) : sdivR id a c = sdiv a c := rfl

theorem maxForceR_id : maxForceR (id : F → F) = MAX_FORCE := rfl

theorem normalizeR_id (sqrt : F → F) (v : Vector2D F) :
    normalizeR id sqrt v = Vector2D.normalize sqrt v := by
  simp only [normalizeR, Vector2D.normalize, magnitudeR_id, id]

theorem clampForceR_id (sqrt : F → F) (v : Vector2D F) :
    clampForceR id sqrt v = clampForce sqrt v := by
  simp only [clampForceR, clampForce, magnitudeR_id, normalizeR_id, smulR_id, maxForceR_id]

theorem separateStepR_id (sqrt : F → F) (b : Boid F) :
    separateStepR id sqrt b = separateStep sqrt b := by
  funext acc o
  simp only [separateStepR, separateStep, magnitudeR_id, normalizeR_id, subR_id, sdivR_id,
    addR_id]

theorem alignStepR_id (sqrt : F → F) (b : Boid F) :
    alignStepR id sqrt b = alignStep sqrt b := by
  funext acc o
  simp only [alignStepR, alignStep, magnitudeR_id, subR_id, addR_id]

theorem cohesionStepR_id (sqrt : F → F) (b : Boid F) :
    cohesionStepR id sqrt b = cohesionStep sqrt b := by
  funext acc o
  simp only [cohesionStepR, cohesionStep, magnitudeR_id, subR_id, addR_id]

/-- Without rounding the rounded `separate` is the `separate` of the exact embedding. -/
theorem separateR_id (sqrt : F → F) (b : Boid F) (L : List (Boid F)) :
    separateR id sqrt b L = separate sqrt b L := by
  simp only [separateR, separate, separateStepR_id, magnitudeR_id, normalizeR_id, subR_id,
    sdivR_id, smulR_id, clampForceR_id]

/-- Without rounding the rounded `align` is the `align` of the exact embedding. -/
theorem alignR_id (sqrt : F → F) (b : Boid F) (L : List (Boid F)) :
    alignR id sqrt b L = align sqrt b L := by
  simp only [alignR, align, alignStepR_id, normalizeR_id, subR_id, sdivR_id, smulR_id,
    clampForceR_id]

/-- Without rounding the rounded `seek` is the `seek` of the exact embedding. -/
theorem seekR_id (sqrt : F → F) (b : Boid F) (target : Vector2D F) :
    seekR id sqrt b target = seek sqrt b target := by
  simp only [seekR, seek, normalizeR_id, subR_id, smulR_id, clampForceR_id]

/-- Without rounding the rounded `cohesion` is the `cohesion` of the exact embedding. -/
theorem cohesionR_id (sqrt : F → F) (b : Boid F) (L : List (Boid F)) :
    cohesionR id sqrt b L = cohesion sqrt b L := by
  simp only [cohesionR, cohesion, cohesionStepR_id, sdivR_id, seekR_id]

/-- Without rounding the rounded `update` is the `update` of the exact embedding. -/
theorem updateR_id (sqrt : F → F) (b : Boid F) (L : List (Boid F)) :
    updateR id sqrt b L = update sqrt b L := by
  simp only [updateR, update, separateR_id, alignR_id, cohesionR_id, normalizeR_id, addR_id,
    smulR_id]

theorem tickLoopR_id (sqrt : F → F) (rest done : List (Boid F)) :
    tickLoopR id sqrt done rest = tickLoop sqrt done rest := by
  induction rest generalizing done with
  | nil => rfl
  | cons b rest ih => rw [tickLoopR, tickLoop, updateR_id, ih]

/-- Without rounding the rounded tick is the tick of the exact embedding. -/
theorem tickR_id (sqrt : F → F) (L : List (Boid F)) : tickR id sqrt L = tick sqrt L :=
  tickLoopR_id sqrt L []

theorem log2Fuel_spec (fuel n : Nat) (hn : 0 < n) (hf : n ≤ fuel) :
    2 ^ log2Fuel fuel n ≤ n ∧ n < 2 ^ (log2Fuel fuel n + 1) := by
  induction fuel generalizing n with
  | zero => omega
  | succ fuel ih =>
    rw [log2Fuel]
    by_cases h2 : n < 2
    · rw [if_pos h2]
      simp only [pow_zero, zero_add, pow_one]
      omega
    · rw [if_neg h2]
      obtain ⟨h3, h4⟩ := ih (n / 2) (by omega) (by omega)
      simp only [pow_succ] at h4 ⊢
      generalize 2 ^ log2Fuel fuel (n / 2) = t at h3 h4 ⊢
      constructor <;> omega

/-- The function `natLog2` is the binary logarithm: `2 ^ natLog2 n ≤ n < 2 ^ (natLog2 n + 1)`. -/
theorem natLog2_spec (n : Nat) (hn : 0 < n) :
    2 ^ natLog2 n ≤ n ∧ n < 2 ^ (natLog2 n + 1) :=
  log2Fuel_spec n n hn le_rfl

theorem isqrtAux_spec (n k r : Nat) (h1 : r * r ≤ n) (h2 : n < (r + 2 ^ k) * (r + 2 ^ k)) :
    isqrtAux n k r * isqrtAux n k r ≤ n ∧ n < (isqrtAux n k r + 1) * (isqrtAux n k r + 1) := by
  induction k generalizing r with
  | zero => simpa [isqrtAux] using And.intro h1 h2
  | succ k ih =>
    rw [isqrtAux]
    by_cases h : (r + 2 ^ k) * (r + 2 ^ k) ≤ n
    · rw [if_pos h]
      apply ih _ h
      have : r + 2 ^ k + 2 ^ k = r + 2 ^ (k + 1) := by rw [pow_succ]; omega
      rw [this]
      exact h2
    · rw [if_neg h]
      exact ih _ h1 (not_le.mp h)

/-- The function `isqrt` is the integer square root: `isqrt n ^ 2 ≤ n < (isqrt n + 1) ^ 2`. -/
theorem isqrt_spec (n : Nat) :
    isqrt n * isqrt n ≤ n ∧ n < (isqrt n + 1) * (isqrt n + 1) := by
  unfold isqrt
  apply isqrtAux_spec
  · simp
  · rcases Nat.eq_zero_or_pos n with h0 | hpos
    · subst h0
      simp
    · obtain ⟨_, h⟩ := natLog2_spec n hpos
      have hle : natLog2 n + 1 ≤ (natLog2 n / 2 + 1) + (natLog2 n / 2 + 1) := by omega
      calc n < 2 ^ (natLog2 n + 1) := h
        _ ≤ 2 ^ ((natLog2 n / 2 + 1) + (natLog2 n / 2 + 1)) :=
          Nat.pow_le_pow_right (by norm_num) hle
        _ = (0 + 2 ^ (natLog2 n / 2 + 1)) * (0 + 2 ^ (natLog2 n / 2 + 1)) := by
          rw [pow_add, zero_add]

/-- The function `roundEven` returns an integer nearest to its argument. -/
theorem roundEven_spec (t : ℚ) : |((roundEven t : Int) : ℚ) - t| ≤ 1 / 2 := by
  have h1 : ((Rat.floor t : Int) : ℚ) ≤ t := Rat.le_floor.mp le_rfl
  have h2 : t < ((Rat.floor t : Int) : ℚ) + 1 := by
    by_contra hc
    push_neg at hc
    have h3 : (Rat.floor t + 1 : Int) ≤ Rat.floor t := Rat.le_floor.mpr (by push_cast; exact hc)
    omega
  unfold roundEven
  simp only []
  rw [abs_le]
  split_ifs with ha hb hc <;> constructor <;> push_cast <;> linarith

/-- The constant `0.1f` is `0x1.99999ap-4`, that is `13421773 * 2 ^ (-27)`. -/
theorem maxForceR_value : maxForceR round32 = 13421773 / 134217728 := by decide!

/-- The values `3.0f`, `25.0f`, `50.0f` and `1.5f` are exact. -/
theorem round32_constants :
    round32 3 = 3 ∧ round32 25 = 25 ∧ round32 50 = 50 ∧ round32 (3 / 2) = 3 / 2 := by decide!

/-- The root `std::sqrt(2.0f)` is `0x1.6a09e6p+0`, and roots of squares are exact. -/
theorem sqrt32_values :
    sqrt32 2 = 11863283 / 8388608 ∧ sqrt32 9 = 3 ∧ sqrt32 (1 / 4) = 1 / 2 := by decide!

/-- A tie is rounded to the even significand: `2 ^ 24 + 1` rounds down to `2 ^ 24` and
`2 ^ 24 + 3` rounds up to `2 ^ 24 + 4`. -/
theorem round32_ties : round32 16777217 = 16777216 ∧ round32 16777219 = 16777220 := by decide!

/-- The value `1.0f / 3.0f` is `0x1.555556p-2`, rounding is symmetric in the sign, and
values that are binary32 numbers already are left alone. -/
theorem round32_values :
    round32 (1 / 3) = 11184811 / 33554432 ∧ round32 (-(1 / 10)) = -(13421773 / 134217728) ∧
      round32 (13421773 / 134217728) = 13421773 / 134217728 ∧
      round32 (12582913 / 4194304) = 12582913 / 4194304 := by decide!

/-- C7, as stated, fails in binary32: for the constructed boid `floatDiag` with
`floatNear` at distance `√10`, `separate` ends in the clamp, and the magnitude of
the vector it returns, computed as the code computes it, is
`13421774 * 2 ^ (-27)` (`0x1.99999cp-4`), one unit in the last place above
`MAX_FORCE = 13421773 * 2 ^ (-27)` (`0x1.99999ap-4`). -/
theorem steering_bound_float_counterexample :
    maxForceR round32 = 13421773 / 134217728 ∧
      magnitudeR round32 sqrt32 (separateR round32 sqrt32 floatDiag [floatDiag, floatNear])
        = 13421774 / 134217728 ∧
      maxForceR round32 <
        magnitudeR round32 sqrt32 (separateR round32 sqrt32 floatDiag [floatDiag, floatNear]) := by
  decide!

/-- C17, as stated, fails in binary32: after one tick of the collection that
holds the single constructed boid `floatDiag` (velocity `(-1.5, -1.5)`), the
magnitude of its velocity, computed as the code computes it, is
`12582913 * 2 ^ (-22)` (about 3.00000024), not `MAX_SPEED`. -/
theorem reachable_speed_float_counterexample :
    (tickR round32 sqrt32 [floatDiag]).map (fun b => magnitudeR round32 sqrt32 b.velocity)
        = [12582913 / 4194304] ∧
      (12582913 / 4194304 : ℚ) ≠ MAX_SPEED := by
  decide!

/-- C18, as stated, fails in binary32: `floatRayNear` and `floatRayFar` both
qualify for `separate` of `floatSelf` and lie on the same ray from it (offsets
`(7, 6)` and `1.5 * (7, 6)`), yet the forces differ in the last bit of the
`y` component: `-8629530 * 2 ^ (-29)` against `-8629531 * 2 ^ (-29)`. -/
theorem separate_single_float_counterexample :
    (0 < magnitudeR round32 sqrt32 (subR round32 floatSelf.position floatRayNear.position) ∧
      magnitudeR round32 sqrt32 (subR round32 floatSelf.position floatRayNear.position)
        < DESIRED_SEPARATION) ∧
    (0 < magnitudeR round32 sqrt32 (subR round32 floatSelf.position floatRayFar.position) ∧
      magnitudeR round32 sqrt32 (subR round32 floatSelf.position floatRayFar.position)
        < DESIRED_SEPARATION) ∧
    (floatSelf.position.x - floatRayFar.position.x
        = (floatSelf.position.x - floatRayNear.position.x) * (3 / 2) ∧
      floatSelf.position.y - floatRayFar.position.y
        = (floatSelf.position.y - floatRayNear.position.y) * (3 / 2)) ∧
    (separateR round32 sqrt32 floatSelf [floatSelf, floatRayNear]).y = -8629530 / 536870912 ∧
    (separateR round32 sqrt32 floatSelf [floatSelf, floatRayFar]).y = -8629531 / 536870912 ∧
    (separateR round32 sqrt32 floatSelf [floatSelf, floatRayNear]).y ≠
      (separateR round32 sqrt32 floatSelf [floatSelf, floatRayFar]).y := by
  decide!

/-- C19, as stated, fails in binary32: `floatVelocity` is the velocity of
`floatEast` after one tick of `[floatDiag, floatEast]`, its magnitude as the
code computes it is exactly `MAX_SPEED`, and the three boids 10, 11 and 12
units away fly with the same velocity; still `align` returns
`(0, 2 ^ (-23))`, not the zero vector. -/
theorem align_fixed_point_float_counterexample :
    ((tickR round32 sqrt32 [floatDiag, floatEast])[1]?).map
        (fun b => (b.velocity.x, b.velocity.y)) = some (floatVelocity.x, floatVelocity.y) ∧
    magnitudeR round32 sqrt32 (floatFlock 100).velocity = MAX_SPEED ∧
    [floatFlock 110, floatFlock 111, floatFlock 112].map
        (fun o => magnitudeR round32 sqrt32 (subR round32 (floatFlock 100).position o.position))
      = [10, 11, 12] ∧
    (alignR round32 sqrt32 (floatFlock 100)
        [floatFlock 100, floatFlock 110, floatFlock 111, floatFlock 112]).x = 0 ∧
    (alignR round32 sqrt32 (floatFlock 100)
        [floatFlock 100, floatFlock 110, floatFlock 111, floatFlock 112]).y = 1 / 8388608 := by
  decide!

end Binary32

/-! ## Swapping two boids in the loop (C9) -/

section Swap

open Vector2D Boid

theorem tickLoop_perm_done (sqrt : F → F) (rest done1 done2 : List (Boid F))
    (h : done1.Perm done2) :
    ∃ tail : List (Boid F),
      tickLoop sqrt done1 rest = done1 ++ tail ∧ tickLoop sqrt done2 rest = done2 ++ tail := by
  induction rest generalizing done1 done2 with
  | nil => exact ⟨[], by simp [tickLoop], by simp [tickLoop]⟩
  | cons b rest ih =>
    have hu : update sqrt b (done2 ++ b :: rest) = update sqrt b (done1 ++ b :: rest) :=
      (update_perm sqrt b _ _ (h.append_right (b :: rest))).symm
    obtain ⟨tail, h1, h2⟩ := ih (done1 ++ [update sqrt b (done1 ++ b :: rest)])
      (done2 ++ [update sqrt b (done1 ++ b :: rest)]) (h.append_right _)
    refine ⟨update sqrt b (done1 ++ b :: rest) :: tail, ?_, ?_⟩
    · rw [tickLoop, h1, List.append_assoc, List.singleton_append]
    · rw [tickLoop, hu, h2, List.append_assoc, List.singleton_append]

theorem tickLoop_prefix_perm (sqrt : F → F) (pre r1 r2 done : List (Boid F))
    (h : r1.Perm r2) :
    ∃ pre2 : List (Boid F), pre2.length = pre.length ∧
      tickLoop sqrt done (pre ++ r1) = tickLoop sqrt (done ++ pre2) r1 ∧
      tickLoop sqrt done (pre ++ r2) = tickLoop sqrt (done ++ pre2) r2 := by
  induction pre generalizing done with
  | nil => exact ⟨[], rfl, by simp, by simp⟩
  | cons x pre ih =>
    have hu : update sqrt x (done ++ x :: (pre ++ r2)) =
        update sqrt x (done ++ x :: (pre ++ r1)) :=
      (update_perm sqrt x _ _
        (List.Perm.append_left done (List.Perm.cons x (List.Perm.append_left pre h)))).symm
    obtain ⟨pre2, hlen, h1, h2⟩ := ih (done ++ [update sqrt x (done ++ x :: (pre ++ r1))])
    refine ⟨update sqrt x (done ++ x :: (pre ++ r1)) :: pre2, by simp [hlen], ?_, ?_⟩
    · rw [List.cons_append, tickLoop, h1, List.append_assoc, List.singleton_append]
    · rw [List.cons_append, tickLoop, hu, h2, List.append_assoc, List.singleton_append]

theorem tickLoop_two (sqrt : F → F) (done post : List (Boid F)) (a c : Boid F) :
    ∃ tail : List (Boid F),
      tickLoop sqrt done (a :: c :: post) =
        done ++ update sqrt a (done ++ a :: c :: post) ::
          update sqrt c (done ++ update sqrt a (done ++ a :: c :: post) :: c :: post) :: tail ∧
      ∀ done2 : List (Boid F),
        done2.Perm (done ++ [update sqrt a (done ++ a :: c :: post),
          update sqrt c (done ++ update sqrt a (done ++ a :: c :: post) :: c :: post)]) →
        tickLoop sqrt done2 post = done2 ++ tail := by
  obtain ⟨tail, h1, _⟩ := tickLoop_perm_done sqrt post
    (done ++ [update sqrt a (done ++ a :: c :: post),
      update sqrt c (done ++ update sqrt a (done ++ a :: c :: post) :: c :: post)])
    (done ++ [update sqrt a (done ++ a :: c :: post),
      update sqrt c (done ++ update sqrt a (done ++ a :: c :: post) :: c :: post)])
    (List.Perm.refl _)
  refine ⟨tail, ?_, ?_⟩
  · rw [tickLoop, tickLoop]
    simp only [List.append_assoc, List.singleton_append] at h1 ⊢
    rw [h1]
    simp only [List.cons_append, List.nil_append]
  · intro done2 hperm
    obtain ⟨tail2, h3, h4⟩ := tickLoop_perm_done sqrt post _ _ hperm
    rw [h3]
    have := h1.symm.trans h4
    rw [List.append_cancel_left this]

theorem update_skip_after (sqrt : F → F) (b x o : Boid F) (L1 L2 : List (Boid F))
    (h : ¬ inNeighborRadius sqrt b o) :
    update sqrt b (L1 ++ x :: o :: L2) = update sqrt b (L1 ++ x :: L2) := by
  have h1 := update_skip sqrt b o (L1 ++ [x]) L2 h
  simpa only [List.append_assoc, List.singleton_append] using h1

/-- C9, amended: in the in-place loop the order of two adjacent boids `a`, `c`
of the collection is irrelevant when neither is within `NEIGHBOR_RADIUS` of
the other, before the tick and after the other's update.  If one tick of
`pre ++ a :: c :: post` gives `pre2 ++ a2 :: c2 :: post2` and `a`, `c` are
out of range of each other and of `c2`, `a2` respectively, then one tick of
`pre ++ c :: a :: post` gives `pre2 ++ c2 :: a2 :: post2`: the two boids
receive the same new states and every other boid is unaffected.  (When the
swapped boids are in range of each other the order in which the loop visits
them matters.) -/
theorem tick_swap_adjacent (sqrt : F → F) (pre post pre2 post2 : List (Boid F))
    (a c a2 c2 : Boid F) (hlen : pre2.length = pre.length)
    (htick : tick sqrt (pre ++ a :: c :: post) = pre2 ++ a2 :: c2 :: post2)
    (hac : ¬ inNeighborRadius sqrt a c) (hca : ¬ inNeighborRadius sqrt c a)
    (hac2 : ¬ inNeighborRadius sqrt a c2) (hca2 : ¬ inNeighborRadius sqrt c a2) :
    tick sqrt (pre ++ c :: a :: post) = pre2 ++ c2 :: a2 :: post2 := by
  obtain ⟨p, hp, h1, h2⟩ :=
    tickLoop_prefix_perm sqrt pre (a :: c :: post) (c :: a :: post) [] (List.Perm.swap c a post)
  simp only [List.nil_append] at h1 h2
  obtain ⟨tail, ht1, ht2⟩ := tickLoop_two sqrt p post a c
  have hL : pre2 ++ a2 :: c2 :: post2 =
      p ++ update sqrt a (p ++ a :: c :: post) ::
        update sqrt c (p ++ update sqrt a (p ++ a :: c :: post) :: c :: post) :: tail := by
    rw [← htick, tick, h1, ht1]
  obtain ⟨hpre, hrest⟩ := List.append_inj hL (hlen.trans hp.symm)
  simp only [List.cons.injEq] at hrest
  obtain ⟨ha2, hc2, hpost⟩ := hrest
  have hua : update sqrt a (p ++ a :: c :: post) = update sqrt a (p ++ a :: post) :=
    update_skip_after sqrt a a c p post hac
  have huc : update sqrt c (p ++ a2 :: c :: post) = update sqrt c (p ++ c :: post) :=
    update_skip sqrt c a2 p (c :: post) hca2
  have huc2 : update sqrt c (p ++ c :: a :: post) = update sqrt c (p ++ c :: post) :=
    update_skip_after sqrt c c a p post hca
  have hua2 : update sqrt a (p ++ c2 :: a :: post) = update sqrt a (p ++ a :: post) :=
    update_skip sqrt a c2 p (a :: post) hac2
  have hc2b : c2 = update sqrt c (p ++ c :: post) := by
    rw [hc2, ← ha2, huc]
  have ha2b : a2 = update sqrt a (p ++ a :: post) := by
    rw [ha2, hua]
  have hstep : tickLoop sqrt p (c :: a :: post) = tickLoop sqrt (p ++ [c2, a2]) post := by
    rw [tickLoop, tickLoop, huc2, ← hc2b]
    simp only [List.append_assoc, List.singleton_append, List.cons_append, List.nil_append]
    rw [hua2, ← ha2b]
  have hperm : (p ++ [c2, a2]).Perm
      (p ++ [update sqrt a (p ++ a :: c :: post),
        update sqrt c (p ++ update sqrt a (p ++ a :: c :: post) :: c :: post)]) := by
    have hc2c : c2 = update sqrt c (p ++ a2 :: c :: post) := by rw [hc2b, huc]
    rw [← ha2, ← hc2c]
    exact List.Perm.append_left p (List.Perm.swap a2 c2 [])
  rw [tick, h2, hstep, ht2 _ hperm, hpre, hpost]
  simp only [List.append_assoc, List.cons_append, List.nil_append]

theorem update_sampleLeft_trio :
    update Real.sqrt (sampleLeft : Boid ℝ) [sampleLeft, sampleEast, sampleRight]
      = sampleLeftNext := by
  norm_num [update, separate, separateStep, cohesion, cohesionStep, seek, align, alignStep,
    clampForce, Vector2D.normalize, magnitude_axis_x, add, sub, smul, sdiv, sampleLeft,
    sampleEast, sampleRight, sampleLeftNext, MAX_SPEED, MAX_FORCE, NEIGHBOR_RADIUS,
    DESIRED_SEPARATION, Vector2D.zero, abs_div, WIDTH, HEIGHT]

theorem update_sampleEast_trio :
    update Real.sqrt (sampleEast : Boid ℝ) [sampleLeftNext, sampleEast, sampleRight]
      = sampleEastNext := by
  norm_num [update, separate, separateStep, cohesion, cohesionStep, seek, align, alignStep,
    clampForce, Vector2D.normalize, magnitude_axis_x, add, sub, smul, sdiv, sampleLeftNext,
    sampleEast, sampleRight, sampleEastNext, MAX_SPEED, MAX_FORCE, NEIGHBOR_RADIUS,
    DESIRED_SEPARATION, Vector2D.zero, abs_div, WIDTH, HEIGHT]

theorem update_sampleRight_trio :
    update Real.sqrt (sampleRight : Boid ℝ) [sampleLeftNext, sampleEastNext, sampleRight]
      = sampleFar := by
  norm_num [update, separate, separateStep, cohesion, cohesionStep, seek, align, alignStep,
    clampForce, Vector2D.normalize, magnitude_axis_x, add, sub, smul, sdiv, sampleLeftNext,
    sampleEastNext, sampleRight, sampleFar, MAX_SPEED, MAX_FORCE, NEIGHBOR_RADIUS,
    DESIRED_SEPARATION, Vector2D.zero, abs_div, WIDTH, HEIGHT]

theorem tick_sample_trio :
    tick Real.sqrt ([] ++ (sampleLeft : Boid ℝ) :: sampleEast :: [sampleRight]) =
      [] ++ sampleLeftNext :: sampleEastNext :: [sampleFar] := by
  simp only [tick, tickLoop, List.nil_append, List.singleton_append, List.cons_append,
    update_sampleLeft_trio, update_sampleEast_trio, update_sampleRight_trio]

theorem far_on_axis (p q : Boid ℝ) (hy : p.position.y - q.position.y = 0)
    (hx : NEIGHBOR_RADIUS ≤ |p.position.x - q.position.x|) :
    ¬ inNeighborRadius Real.sqrt p q := by
  unfold inNeighborRadius
  have hm : magnitude Real.sqrt (sub p.position q.position) = |p.position.x - q.position.x| := by
    simp only [sub, hy]
    exact magnitude_axis_x _
  rw [hm]
  exact fun hc => absurd hc.2 (not_lt.mpr hx)

theorem sample_trio_apart :
    ¬ inNeighborRadius Real.sqrt (sampleLeft : Boid ℝ) sampleEast ∧
      ¬ inNeighborRadius Real.sqrt (sampleEast : Boid ℝ) sampleLeft ∧
      ¬ inNeighborRadius Real.sqrt (sampleLeft : Boid ℝ) sampleEastNext ∧
      ¬ inNeighborRadius Real.sqrt (sampleEast : Boid ℝ) sampleLeftNext := by
  refine ⟨far_on_axis _ _ ?_ ?_, far_on_axis _ _ ?_ ?_, far_on_axis _ _ ?_ ?_,
    far_on_axis _ _ ?_ ?_⟩ <;>
    norm_num [sampleLeft, sampleEast, sampleEastNext, sampleLeftNext, NEIGHBOR_RADIUS, abs_le,
      le_abs]

/-- Witness for C9 (amended): `sampleLeft` and `sampleEast`, 80 units apart, are
swapped in front of `sampleRight`, which is within range of both. -/
theorem tick_swap_adjacent_witness :
    (([] : List (Boid ℝ)).length = ([] : List (Boid ℝ)).length ∧
      tick Real.sqrt ([] ++ (sampleLeft : Boid ℝ) :: sampleEast :: [sampleRight]) =
        [] ++ sampleLeftNext :: sampleEastNext :: [sampleFar] ∧
      ¬ inNeighborRadius Real.sqrt (sampleLeft : Boid ℝ) sampleEast ∧
      ¬ inNeighborRadius Real.sqrt (sampleEast : Boid ℝ) sampleLeft ∧
      ¬ inNeighborRadius Real.sqrt (sampleLeft : Boid ℝ) sampleEastNext ∧
      ¬ inNeighborRadius Real.sqrt (sampleEast : Boid ℝ) sampleLeftNext) ∧
      tick Real.sqrt ([] ++ (sampleEast : Boid ℝ) :: sampleLeft :: [sampleRight]) =
        [] ++ sampleEastNext :: sampleLeftNext :: [sampleFar] :=
  ⟨⟨rfl, tick_sample_trio, sample_trio_apart⟩,
    tick_swap_adjacent Real.sqrt [] [sampleRight] [] [sampleFar] sampleLeft sampleEast
      sampleLeftNext sampleEastNext rfl tick_sample_trio sample_trio_apart.1
      sample_trio_apart.2.1 sample_trio_apart.2.2.1 sample_trio_apart.2.2.2⟩

end Swap

end Flocking
